import Mathlib

/-!
# glock: a lockfile-guarded command runner

A shallow embedding of `main.go` (functions `main`, `glock`, `lockFile`,
`checkExisting`) together with the parts of the Go runtime they call
(`fmt.Fscanf` with the format `"%d\n"`, `fmt.Fprintf` with `"%d\n"`,
`os.OpenFile`, `os.Remove`, `os.FindProcess`, `Process.Signal`,
`time.Duration` arithmetic and the `select` between a timer and the child).

Conventions.
* Go's `int`, `int64` and `time.Duration` are 64-bit two's-complement
  integers; they are modelled as `Int` with an explicit wrap (`wrap64`).
* A file's content is a list of runes (`List Char`).
* The file system is a directory (path to inode) plus an inode table, so
  that an open descriptor keeps reading the file it opened after the path
  has been unlinked or re-created.
* Outcomes of system calls that the file-system state does not determine
  (permission failures, signal delivery, ...) come from an oracle `Sys`.
-/

namespace Glock

deriving instance DecidableEq for Except

/-! ## Machine integers and durations -/

/-- Two's-complement wrap of an integer into the 64-bit signed range. -/
def wrap64 (x : Int) : Int := (x + 2 ^ 63) % 2 ^ 64 - 2 ^ 63

/-- The range of Go's `int` on a 64-bit platform. -/
def inInt64 (x : Int) : Prop := -(2 ^ 63) ≤ x ∧ x < 2 ^ 63

instance (x : Int) : Decidable (inInt64 x) := by
  unfold inInt64; exact inferInstance

/-- Nanoseconds in `time.Second`. -/
def second : Int := 1000000000

/-- Go's `time.Duration(n) * time.Second`: a 64-bit multiplication. -/
def secondsDur (n : Int) : Int := wrap64 (n * second)

/-! ## `fmt.Fscanf(f, "%d\n", &pid)` -/

/-- Errors raised inside `fmt.Fscanf`. -/
inductive ScanErr where
  | unexpectedNewline
  | unexpectedEOF
  | expectedInteger
  | syntaxError
  | rangeError
  | newlineMismatch
  | readError
  deriving DecidableEq, Repr

/-- The table `space` of `fmt/scan.go`. -/
def spaceRanges : List (Nat × Nat) :=
  [(0x0009, 0x000d), (0x0020, 0x0020), (0x0085, 0x0085), (0x00a0, 0x00a0),
   (0x1680, 0x1680), (0x2000, 0x200a), (0x2028, 0x2029), (0x202f, 0x202f),
   (0x205f, 0x205f), (0x3000, 0x3000)]

/-- The loop of `isSpace` over the range table. -/
def inRanges : List (Nat × Nat) → Nat → Bool
  | [], _ => false
  | (lo, hi) :: rest, rx =>
    if rx < lo then false else if rx ≤ hi then true else inRanges rest rx

/-- Go's `fmt.isSpace`. -/
def isSpace (r : Char) : Bool :=
  if r.toNat ≥ 65536 then false else inRanges spaceRanges r.toNat

/-- The limit `hugeWid` on the number of runes one scan reads. -/
def hugeWid : Nat := 2 ^ 30

/-- Go's `ss.SkipSpace` with `nlIsSpace = false`: skips spaces, fails on a
newline, stops in front of the first rune that is no space. -/
def skipSpace : List Char → Except ScanErr (List Char)
  | [] => .ok []
  | r :: rest =>
    if r = '\r' ∧ rest.head? = some '\n' then skipSpace rest
    else if r = '\n' then .error .unexpectedNewline
    else if !isSpace r then .ok (r :: rest)
    else skipSpace rest

/-- The digit set of verb `d` in `getBase`: the decimal digits (the
underscore belongs to verb `v` only, through `scanBasePrefix`). -/
def isDigitRune (c : Char) : Bool := '0' ≤ c ∧ c ≤ '9'

/-- The loop of `strconv.ParseUint(s, 10, 64)` from accumulator `n`. -/
def parseUintFrom : List Char → Nat → Except ScanErr Nat
  | [], n => .ok n
  | c :: rest, n =>
    if '0' ≤ c ∧ c ≤ '9' then
      let n1 := n * 10 + (c.toNat - 48)
      if n1 ≥ 2 ^ 64 then .error .rangeError else parseUintFrom rest n1
    else .error .syntaxError

/-- Go's `strconv.ParseInt(sign ++ digits, 10, 64)` on a token already split
into its sign (`neg`) and the runes after the sign. -/
def parseInt (neg : Bool) (digits : List Char) : Except ScanErr Int :=
  if digits = [] then .error .syntaxError
  else
    match parseUintFrom digits 0 with
    | .error e => .error e
    | .ok un =>
      if !neg ∧ un ≥ 2 ^ 63 then .error .rangeError
      else if neg ∧ un > 2 ^ 63 then .error .rangeError
      else .ok (if neg then -(un : Int) else (un : Int))

/-- Go's `ss.scanInt` for verb `d` and a 64-bit destination: skip spaces,
require input, accept one sign, require a digit rune, take every following
digit rune, and convert the token. Returns the value and the unread input. -/
def scanInt (input : List Char) : Except ScanErr (Int × List Char) :=
  match skipSpace input with
  | .error e => .error e
  | .ok [] => .error .unexpectedEOF
  | .ok (c :: rest) =>
    let neg := c = '-'
    let afterSign := if c = '+' ∨ c = '-' then rest else c :: rest
    match afterSign with
    | [] => .error .unexpectedEOF
    | d :: ds =>
      if !isDigitRune d then .error .expectedInteger
      else
        match parseInt neg ((d :: ds).takeWhile isDigitRune) with
        | .error e => .error e
        | .ok v => .ok (v, (d :: ds).dropWhile isDigitRune)

/-- The newline of the format in `ss.advance`: it matches zero or more
spaces followed by a newline or by the end of the input. -/
def matchNewline : List Char → Except ScanErr (List Char)
  | [] => .ok []
  | c :: rest =>
    if isSpace c ∧ c ≠ '\n' then matchNewline rest
    else if c = '\n' then .ok rest
    else .error .newlineMismatch

/-- Go's `fmt.Fscanf(f, "%d\n", &pid)` on the content of `f`: the value
stored in `pid`, or the error returned. -/
def fscanfPid (content : List Char) : Except ScanErr Int :=
  match skipSpace (content.take hugeWid) with
  | .error e => .error e
  | .ok input =>
    match scanInt input with
    | .error e => .error e
    | .ok (v, rest) =>
      match matchNewline rest with
      | .error e => .error e
      | .ok _ => .ok v

/-! ## `fmt.Fprintf(f, "%d\n", os.Getpid())` -/

/-- The rune of one decimal digit. -/
def digitChar (d : Nat) : Char := Char.ofNat (48 + d)

/-- The digit loop of `fmt.fmtInteger` in base 10: `fuel` bounds the number
of digits (20 suffice for 64 bits), `acc` holds the digits already written
at the right end of the buffer. -/
def fmtUintAux : Nat → Nat → List Char → List Char
  | 0, _, acc => acc
  | fuel + 1, u, acc =>
    if u < 10 then digitChar u :: acc
    else fmtUintAux fuel (u / 10) (digitChar (u % 10) :: acc)

/-- Decimal digits of an unsigned 64-bit number. -/
def fmtUint (u : Nat) : List Char := fmtUintAux 20 u []

/-- Go's `%d` on an `int`: a minus sign for negatives, then the digits. -/
def fmtInt (n : Int) : List Char :=
  if n < 0 then '-' :: fmtUint n.natAbs else fmtUint n.natAbs

/-- The bytes `fmt.Fprintf(f, "%d\n", pid)` writes. -/
def pidLine (pid : Int) : List Char := fmtInt pid ++ ['\n']

/-! ## The file system -/

/-- A file name. -/
abbrev Path := String

/-- The content of a file. -/
abbrev Content := List Char

/-- A file system: the inode each path names, the content of each inode and
the number of the next inode to hand out. -/
structure Disk where
  dir : Path → Option Nat
  data : Nat → Content
  next : Nat

/-- The content of the file at a path, if the path names one. -/
def Disk.read (d : Disk) (p : Path) : Option Content := (d.dir p).map d.data

/-- The path stops naming a file. -/
def Disk.unlink (d : Disk) (p : Path) : Disk :=
  { d with dir := fun q => if q = p then none else d.dir q }

/-- The path names a new, empty file. -/
def Disk.create (d : Disk) (p : Path) : Disk :=
  { dir := fun q => if q = p then some d.next else d.dir q
    data := fun i => if i = d.next then [] else d.data i
    next := d.next + 1 }

/-- Bytes are appended to an inode. -/
def Disk.append (d : Disk) (ino : Nat) (bytes : Content) : Disk :=
  { d with data := fun i => if i = ino then d.data i ++ bytes else d.data i }

/-- A disk on which only `p` names a file, with content `c`. -/
def Disk.single (p : Path) (c : Content) : Disk :=
  { dir := fun q => if q = p then some 0 else none
    data := fun _ => c
    next := 1 }

/-- A disk without files. -/
def Disk.empty : Disk :=
  { dir := fun _ => none, data := fun _ => [], next := 0 }

/-! ## System calls -/

/-- The error of a failed `os.OpenFile`: one that is no `*os.PathError`, or a
`*os.PathError` whose inner error prints as `msg`. -/
inductive OpenErr where
  | notPathError
  | pathError (msg : String)
  deriving DecidableEq, Repr

/-- The message of `ENOENT`. -/
def noSuchFile : String := "no such file or directory"

/-- How the read-only `os.OpenFile` can fail for a reason other than a
missing file: with an error that is no `*os.PathError`, or with a
`*os.PathError` whose inner error prints as some `msg` other than that of
`ENOENT`. -/
inductive OpenFault where
  | notPathError
  | pathError (msg : String) (other : msg ≠ noSuchFile)

/-- The error a fault makes `os.OpenFile` return. -/
def OpenFault.err : OpenFault → OpenErr
  | .notPathError => .notPathError
  | .pathError msg _ => .pathError msg

/-- The outcomes of one process's system calls that the disk does not
determine. An `Option String` stands for a Go `error`: `none` is `nil`,
`some msg` an error whose `Error()` is `msg`. -/
structure Sys where
  /-- The result of `os.Getpid()`. -/
  pid : Int
  /-- A failure injected into the read-only `os.OpenFile`. -/
  openFault : Option OpenFault
  /-- Reading the opened file fails. -/
  readFault : Bool
  /-- Whether `os.FindProcess(pid)` succeeds. -/
  findProcess : Int → Bool
  /-- The error of `process.Signal(syscall.Signal(0))`. -/
  signal0 : Int → Option String
  /-- The `os.Remove` of the stale lockfile fails. -/
  removeFault : Bool
  /-- The exclusive `os.OpenFile` fails although the path is free (its
  directory is missing or not writable, the disk is full, ...). -/
  createFault : Bool
  /-- The write of the pid fails after that many bytes. -/
  writeFault : Option Nat

/-- The system calls a `lockFile` call makes, for the record. -/
inductive SysCall where
  | openRead
  | read
  | findProcess (pid : Int)
  | signal (pid : Int)
  | remove
  | create
  | write
  deriving DecidableEq, Repr

/-- The message of `os.ErrProcessDone`. -/
def processFinished : String := "os: process already finished"

/-- Go's `os.OpenFile(filename, os.O_RDONLY, 0600)`: the inode opened. -/
def openRead (sys : Sys) (d : Disk) (filename : Path) : Except OpenErr Nat :=
  match sys.openFault with
  | some f => .error f.err
  | none =>
    match d.dir filename with
    | none => .error (.pathError noSuchFile)
    | some ino => .ok ino

/-- Reading the open file through `fmt.Fscanf(f, "%d\n", &pid)`. -/
def scanFile (sys : Sys) (d : Disk) (ino : Nat) : Except ScanErr Int :=
  if sys.readFault then .error .readError else fscanfPid (d.data ino)

/-- Go's `os.Remove(filename)`: the disk after it, `none` when it fails. -/
def osRemove (fault : Bool) (d : Disk) (filename : Path) : Option Disk :=
  if fault then none
  else match d.dir filename with
    | none => none
    | some _ => some (d.unlink filename)

/-- Go's `os.OpenFile(filename, os.O_RDWR|os.O_CREATE|os.O_EXCL, 0600)`:
the disk after it and the inode created, `none` when it fails. -/
def createExcl (sys : Sys) (d : Disk) (filename : Path) : Option (Disk × Nat) :=
  if sys.createFault then none
  else match d.dir filename with
    | some _ => none
    | none => some (d.create filename, d.next)

/-- Go's `fmt.Fprintf(f, "%d\n", os.Getpid())`: the disk after it and
whether the write succeeded. -/
def writePid (sys : Sys) (d : Disk) (ino : Nat) : Disk × Bool :=
  match sys.writeFault with
  | some k => (d.append ino ((pidLine sys.pid).take k), false)
  | none => (d.append ino (pidLine sys.pid), true)

/-! ## `checkExisting` and `lockFile` -/

/-- The errors `checkExisting` and `lockFile` return, one for each
`errors.Wrap` or `fmt.Errorf` of the source. -/
inductive LockErr where
  | unknownFileError
  | couldNotOpenFile
  | couldNotRead (e : ScanErr)
  | findFailed (pid : Int)
  | inUse
  | signalFailed (pid : Int)
  | couldNotRemoveExisting
  | checkExistingError (e : LockErr)
  | couldNotCreate
  | couldNotWritePid
  deriving DecidableEq, Repr

/-- What a call returns and does: the Go `error` (`none` is `nil`), the disk
after the call and the system calls made, in order. -/
structure Outcome where
  err : Option LockErr
  disk : Disk
  calls : List SysCall

/-- The function `checkExisting` of `main.go`. -/
def checkExisting (sys : Sys) (filename : Path) (d : Disk) : Outcome :=
  match openRead sys d filename with
  | .error .notPathError => ⟨some .unknownFileError, d, [.openRead]⟩
  | .error (.pathError msg) =>
    if msg ≠ noSuchFile then ⟨some .couldNotOpenFile, d, [.openRead]⟩
    else ⟨none, d, [.openRead]⟩
  | .ok ino =>
    match scanFile sys d ino with
    | .error e => ⟨some (.couldNotRead e), d, [.openRead, .read]⟩
    | .ok pid =>
      if !sys.findProcess pid then
        ⟨some (.findFailed pid), d, [.openRead, .read, .findProcess pid]⟩
      else
        match sys.signal0 pid with
        | none => ⟨some .inUse, d, [.openRead, .read, .findProcess pid, .signal pid]⟩
        | some msg =>
          if msg ≠ processFinished then
            ⟨some (.signalFailed pid), d,
              [.openRead, .read, .findProcess pid, .signal pid]⟩
          else
            match osRemove sys.removeFault d filename with
            | none =>
              ⟨some .couldNotRemoveExisting, d,
                [.openRead, .read, .findProcess pid, .signal pid, .remove]⟩
            | some d1 =>
              ⟨none, d1, [.openRead, .read, .findProcess pid, .signal pid, .remove]⟩

/-- The function `lockFile` of `main.go`. -/
def lockFile (sys : Sys) (filename : Path) (d : Disk) : Outcome :=
  match checkExisting sys filename d with
  | ⟨some e, d1, calls⟩ => ⟨some (.checkExistingError e), d1, calls⟩
  | ⟨none, d1, calls⟩ =>
    match createExcl sys d1 filename with
    | none => ⟨some .couldNotCreate, d1, calls ++ [.create]⟩
    | some (d2, ino) =>
      match writePid sys d2 ino with
      | (d3, false) => ⟨some .couldNotWritePid, d3, calls ++ [.create, .write]⟩
      | (d3, true) => ⟨none, d3, calls ++ [.create, .write]⟩

/-! ## `lockFile` as a sequence of system calls

Between two system calls of one process another process may run. The
control points of `lockFile` (with `checkExisting` inlined) are the
states of a small machine whose every step makes one system call. -/

/-- Where a process stands inside `lockFile`. -/
inductive PC where
  | atOpen
  | atRead (ino : Nat)
  | atProbe (pid : Int)
  | atRemove
  | atCreate
  | atWrite (ino : Nat)
  | done (err : Option LockErr)
  deriving DecidableEq, Repr

/-- One system call of a process inside `lockFile`. -/
def stepProc (sys : Sys) (filename : Path) (pc : PC) (d : Disk) : PC × Disk :=
  match pc with
  | .atOpen =>
    match openRead sys d filename with
    | .error .notPathError => (.done (some (.checkExistingError .unknownFileError)), d)
    | .error (.pathError msg) =>
      if msg ≠ noSuchFile then (.done (some (.checkExistingError .couldNotOpenFile)), d)
      else (.atCreate, d)
    | .ok ino => (.atRead ino, d)
  | .atRead ino =>
    match scanFile sys d ino with
    | .error e => (.done (some (.checkExistingError (.couldNotRead e))), d)
    | .ok pid => (.atProbe pid, d)
  | .atProbe pid =>
    if !sys.findProcess pid then (.done (some (.checkExistingError (.findFailed pid))), d)
    else
      match sys.signal0 pid with
      | none => (.done (some (.checkExistingError .inUse)), d)
      | some msg =>
        if msg ≠ processFinished then
          (.done (some (.checkExistingError (.signalFailed pid))), d)
        else (.atRemove, d)
  | .atRemove =>
    match osRemove sys.removeFault d filename with
    | none => (.done (some (.checkExistingError .couldNotRemoveExisting)), d)
    | some d1 => (.atCreate, d1)
  | .atCreate =>
    match createExcl sys d filename with
    | none => (.done (some .couldNotCreate), d)
    | some (d1, ino) => (.atWrite ino, d1)
  | .atWrite ino =>
    match writePid sys d ino with
    | (d1, false) => (.done (some .couldNotWritePid), d1)
    | (d1, true) => (.done none, d1)
  | .done err => (.done err, d)

/-- A process running alone for `n` system calls. -/
def runProc (sys : Sys) (filename : Path) : Nat → PC × Disk → PC × Disk
  | 0, s => s
  | n + 1, s => runProc sys filename n (stepProc sys filename s.1 s.2)

/-- The two processes of an interleaving. -/
inductive Who where
  | A
  | B
  deriving DecidableEq, Repr

/-- Two processes inside `lockFile` on one disk. -/
structure Two where
  a : PC
  b : PC
  disk : Disk

/-- The process `who` makes its next system call. -/
def stepTwo (sysA sysB : Sys) (filename : Path) (who : Who) (s : Two) : Two :=
  match who with
  | .A =>
    let r := stepProc sysA filename s.a s.disk
    { s with a := r.1, disk := r.2 }
  | .B =>
    let r := stepProc sysB filename s.b s.disk
    { s with b := r.1, disk := r.2 }

/-- An interleaving: the processes step in the order the schedule lists. -/
def runTwo (sysA sysB : Sys) (filename : Path) : List Who → Two → Two
  | [], s => s
  | who :: rest, s => runTwo sysA sysB filename rest (stepTwo sysA sysB filename who s)

/-- Both processes at the entry of `lockFile`. -/
def Two.init (d : Disk) : Two := ⟨.atOpen, .atOpen, d⟩

/-! ## `glock` -/

/-- What one run of `glock` meets outside itself. -/
structure World where
  /-- The system-call outcomes of the `i`-th call of `lockFile`. -/
  lockSys : Nat → Sys
  /-- Nanoseconds the `i`-th call of `lockFile` takes. -/
  lockTime : Nat → Nat
  /-- Nanoseconds the `i`-th `time.Sleep(1 * time.Second)` takes. -/
  sleepTime : Nat → Nat
  /-- What other processes do to the disk during the `i`-th sleep. -/
  others : Nat → Disk → Disk
  /-- The method `c.Start()` returns an error. -/
  startFails : Bool
  /-- Nanoseconds after the start at which `c.Wait()` returns; `none` when
  the command never exits by itself. -/
  exitAfter : Option Nat
  /-- The method `c.Wait()` returns an error. -/
  waitFails : Bool
  /-- The case `select` picks when timer and command are ready together. -/
  tieToTimer : Bool
  /-- The method `c.Process.Kill()` returns an error. -/
  killFails : Bool
  /-- What the command and other processes do to the disk while `glock`
  supervises the command. -/
  duringRun : Disk → Disk
  /-- The deferred `os.Remove(lockfile)` fails. -/
  releaseFault : Bool

/-- The lines `glock` prints through `log` and `logErr`. -/
inductive Line where
  | obtaining
  | lockFileError (e : LockErr)
  | couldNotObtain (wait : Int)
  | waiting1s
  | couldNotRemoveLockfile
  | released
  | obtained
  | running (timeout : Int)
  | couldNotStart
  | exitedWithError
  | success
  | couldNotKill
  | killedOnTimeout
  deriving DecidableEq, Repr

/-- What `glock` does, in order. -/
inductive Event where
  | log (l : Line)
  | logErr (l : Line)
  | lockFile (err : Option LockErr)
  | sleep (d : Int)
  | start
  | wait
  | kill
  | removeLock (ok : Bool)
  deriving DecidableEq, Repr

/-- Go's `time.Since(start)` when `now` nanoseconds have passed: a
`Duration`, which saturates at its maximum. -/
def since (now : Nat) : Int := min (now : Int) (2 ^ 63 - 1)

/-- How the acquisition loop stands. -/
inductive LoopStatus where
  | locked
  | gaveUp
  | looping
  deriving DecidableEq, Repr

/-- The acquisition loop after some iterations. -/
structure Acquire where
  status : LoopStatus
  disk : Disk
  trace : List Event

/-- The `for` loop of `glock`, run for at most `fuel` iterations from
iteration `i`, `now` nanoseconds after `start`. -/
def acquire (w : World) (lockfile : Path) (wait : Int) :
    Nat → Nat → Nat → Disk → Acquire
  | 0, _, _, d => ⟨.looping, d, []⟩
  | fuel + 1, i, now, d =>
    let o := lockFile (w.lockSys i) lockfile d
    let now1 := now + w.lockTime i
    match o.err with
    | none => ⟨.locked, o.disk, [.lockFile none]⟩
    | some e =>
      if wait > -1 ∧ since now1 ≥ secondsDur wait then
        ⟨.gaveUp, o.disk,
          [.lockFile (some e), .logErr (.lockFileError e), .logErr (.couldNotObtain wait)]⟩
      else
        let r := acquire w lockfile wait fuel (i + 1) (now1 + w.sleepTime i)
          (w.others i o.disk)
        ⟨r.status, r.disk,
          [.lockFile (some e), .logErr (.lockFileError e), .logErr .waiting1s, .sleep second]
            ++ r.trace⟩

/-- How a run of `glock` ends. -/
inductive Result where
  | returned (b : Bool)
  | panicked
  | blocked
  | looping
  deriving DecidableEq, Repr

/-- Whether the `select` of `glock` takes the timer's case: the channel of
`time.After(timeoutDur)` is ready once `timeoutDur` has passed, at once
when `timeoutDur` is not positive. -/
def timerFirst (w : World) (timeoutDur : Int) : Bool :=
  match w.exitAfter with
  | none => true
  | some t =>
    if (t : Int) < max timeoutDur 0 then false
    else if max timeoutDur 0 < (t : Int) then true
    else w.tieToTimer

/-- The part of `glock` after the loop, without the deferred release. -/
def supervise (w : World) (timeout : Int) (command : List String) :
    Result × List Event :=
  match command with
  | [] => (.panicked, [.log .obtained, .log (.running timeout)])
  | _ :: _ =>
    if w.startFails then
      (.returned false,
        [.log .obtained, .log (.running timeout), .start, .logErr .couldNotStart])
    else if timeout = -1 then
      match w.exitAfter with
      | none => (.blocked, [.log .obtained, .log (.running timeout), .start, .wait])
      | some _ =>
        if w.waitFails then
          (.returned false,
            [.log .obtained, .log (.running timeout), .start, .wait, .logErr .exitedWithError])
        else
          (.returned true,
            [.log .obtained, .log (.running timeout), .start, .wait, .log .success])
    else if timerFirst w (secondsDur timeout) then
      if w.killFails then
        (.returned false,
          [.log .obtained, .log (.running timeout), .start, .kill, .logErr .couldNotKill])
      else
        (.returned false,
          [.log .obtained, .log (.running timeout), .start, .kill, .logErr .killedOnTimeout])
    else if w.waitFails then
      (.returned false,
        [.log .obtained, .log (.running timeout), .start, .wait, .logErr .exitedWithError])
    else
      (.returned true,
        [.log .obtained, .log (.running timeout), .start, .wait, .log .success])

/-- The deferred function of `glock`. -/
def release (w : World) (lockfile : Path) (d : Disk) : Disk × List Event :=
  match osRemove w.releaseFault d lockfile with
  | none => (d, [.removeLock false, .logErr .couldNotRemoveLockfile, .log .released])
  | some d1 => (d1, [.removeLock true, .log .released])

/-- A run of `glock`. -/
structure Run where
  result : Result
  disk : Disk
  trace : List Event

/-- The function `glock` of `main.go`, its loop run for at most `fuel`
iterations. -/
def glock (w : World) (lockfile : Path) (wait timeout : Int) (command : List String)
    (fuel : Nat) (d : Disk) : Run :=
  let a := acquire w lockfile wait fuel 0 0 d
  match a.status with
  | .looping => ⟨.looping, a.disk, .log .obtaining :: a.trace⟩
  | .gaveUp => ⟨.returned false, a.disk, .log .obtaining :: a.trace⟩
  | .locked =>
    let s := supervise w timeout command
    match s.1 with
    | .blocked => ⟨.blocked, w.duringRun a.disk, .log .obtaining :: a.trace ++ s.2⟩
    | r =>
      let rel := release w lockfile (w.duringRun a.disk)
      ⟨r, rel.1, .log .obtaining :: a.trace ++ s.2 ++ rel.2⟩

/-- The exit status of `main` after flag parsing: `none` while the process
has not exited. -/
def main (w : World) (version : Bool) (lockfile : Path) (wait timeout : Int)
    (args : List String) (fuel : Nat) (d : Disk) : Option Nat :=
  if version then some 0
  else if args.length < 1 then some 1
  else
    match (glock w lockfile wait timeout args fuel d).result with
    | .returned false => some 1
    | .returned true => some 0
    | .panicked => some 2
    | .blocked => none
    | .looping => none

/-- Number of `lockFile` calls in a trace. -/
def attempts : List Event → Nat
  | [] => 0
  | .lockFile _ :: t => attempts t + 1
  | _ :: t => attempts t

/-- Number of sleeps in a trace. -/
def sleeps : List Event → Nat
  | [] => 0
  | .sleep _ :: t => sleeps t + 1
  | _ :: t => sleeps t

/-- Number of deferred removals in a trace. -/
def releases : List Event → Nat
  | [] => 0
  | .removeLock _ :: t => releases t + 1
  | _ :: t => releases t

/-- Whether a trace starts the command. -/
def starts : List Event → Bool
  | [] => false
  | .start :: _ => true
  | _ :: t => starts t

/-- What one failed iteration of the loop that goes on does. -/
def failedRound (e : LockErr) : List Event :=
  [.lockFile (some e), .logErr (.lockFileError e), .logErr .waiting1s, .sleep second]

/-! ## Values, systems and worlds used in statements and examples -/

/-- The value of a run of decimal digits read after the number `n`. -/
def digitsVal : List Char → Nat → Nat
  | [], n => n
  | c :: rest, n => digitsVal rest (n * 10 + (c.toNat - 48))

/-- A rune is one of `0` to `9`. -/
def IsDec (c : Char) : Prop := ∃ d, d < 10 ∧ c = digitChar d

/-- The rounds of a run of failed iterations. -/
def failedRounds : List LockErr → List Event
  | [] => []
  | e :: es => failedRound e ++ failedRounds es

/-- A system without injected faults in which every recorded owner but
`dead` is alive. -/
def Sys.plain (pid dead : Int) : Sys :=
  { pid := pid, openFault := none, readFault := false, findProcess := fun _ => true,
    signal0 := fun p => if p = dead then some processFinished else none,
    removeFault := false, createFault := false, writeFault := none }

/-- A world in which every `lockFile` call meets the system `sys`, takes a
millisecond, every sleep takes exactly its second, nobody else touches the
disk, and the command starts and exits cleanly after one second. -/
def World.calm (sys : Sys) : World :=
  { lockSys := fun _ => sys, lockTime := fun _ => 1000000,
    sleepTime := fun _ => 1000000000, others := fun _ d => d, startFails := false,
    exitAfter := some 1000000000, waitFails := false, tieToTimer := false,
    killFails := false, duringRun := fun d => d, releaseFault := false }

/-- A system in which the exclusive create always fails. -/
def Sys.noCreate (pid : Int) : Sys :=
  { pid := pid, openFault := none, readFault := false, findProcess := fun _ => true,
    signal0 := fun _ => none, removeFault := false, createFault := true,
    writeFault := none }

/-- A system in which the write of the pid fails after `k` bytes. -/
def Sys.noWrite (pid : Int) (k : Nat) : Sys :=
  { pid := pid, openFault := none, readFault := false, findProcess := fun _ => true,
    signal0 := fun _ => none, removeFault := false, createFault := false,
    writeFault := some k }

/-- A system in which the read-only open is refused. -/
def Sys.noOpen (pid : Int) : Sys :=
  { pid := pid, openFault := some (.pathError "permission denied" (by decide)),
    readFault := false, findProcess := fun _ => true, signal0 := fun _ => none,
    removeFault := false, createFault := false, writeFault := none }

/-- The lock path of the examples: the default of the flag `lockfile`. -/
def lockPath : Path := "/tmp/glockfile"

/-- A disk whose lockfile records the owner 999. -/
def staleDisk : Disk := Disk.single lockPath ['9', '9', '9', '\n']

/-- An interleaving of two `lockFile` calls: both open, read and probe the
stale lockfile, then A removes it, creates its own and writes its pid, and
then B does the same. -/
def raceSchedule : List Who :=
  [.A, .A, .A, .B, .B, .B, .A, .A, .A, .B, .B, .B]

/-! ## The invariant of two interleaved calls on a free lock path -/

/-- The process has created its lockfile: it is about to write its pid or
has returned nil. -/
def Owns (pc : PC) : Prop := (∃ i, pc = .atWrite i) ∨ pc = .done none

/-- The process has returned an error. -/
def Failed (pc : PC) : Prop := ∃ e, pc = .done (some e)

/-- What holds of a process inside `lockFile` while no lockfile has been
removed: an open descriptor is on the file at the lock path, a scanned pid
is one of the `known` pids, no process is about to remove, and a process
about to write faces the empty file it created at the lock path. -/
def ProcOk (known : Int → Prop) (filename : Path) (d : Disk) : PC → Prop
  | .atOpen => True
  | .atRead i => d.dir filename = some i
  | .atProbe p => known p
  | .atRemove => False
  | .atCreate => True
  | .atWrite i => d.dir filename = some i ∧ d.data i = []
  | .done _ => True

/-- What holds of the disk while no lockfile has been removed: a free lock
path means nobody has created a lockfile, a file at the lock path is empty
or holds the pid line of a `known` pid, and the two processes have not both
created a lockfile. -/
def DiskOk (known : Int → Prop) (filename : Path) (d : Disk) (a b : PC) : Prop :=
  (match d.dir filename with
    | none => ¬ Owns a ∧ ¬ Owns b
    | some ino => d.data ino = [] ∨ ∃ p, known p ∧ d.data ino = pidLine p) ∧
  ¬ (Owns a ∧ Owns b)

/-- The invariant of two interleaved `lockFile` calls that start on a free
lock path: one of them has failed, or nothing has been removed so far. -/
def Safe (known : Int → Prop) (filename : Path) (s : Two) : Prop :=
  Failed s.a ∨ Failed s.b ∨
    (ProcOk known filename s.disk s.a ∧ ProcOk known filename s.disk s.b ∧
      DiskOk known filename s.disk s.a s.b)

/-! ## The scan reads back what the print wrote -/

theorem digitChar_facts (d : Nat) (h : d < 10) :
    ('0' ≤ digitChar d ∧ digitChar d ≤ '9') ∧ (digitChar d).toNat - 48 = d ∧
      isSpace (digitChar d) = false ∧ isDigitRune (digitChar d) = true ∧
      digitChar d ≠ '\n' ∧ digitChar d ≠ '\r' ∧ digitChar d ≠ '+' ∧ digitChar d ≠ '-' := by
  interval_cases d <;> decide

theorem digitsVal_ge (ds : List Char) (n : Nat) : n ≤ digitsVal ds n := by
  induction ds generalizing n with
  | nil => simp [digitsVal]
  | cons c rest ih =>
    have := ih (n * 10 + (c.toNat - 48))
    simp only [digitsVal]
    omega

theorem parseUintFrom_digits (ds : List Char) (n : Nat) (hall : ∀ c ∈ ds, IsDec c)
    (hv : digitsVal ds n < 2 ^ 64) : parseUintFrom ds n = .ok (digitsVal ds n) := by
  induction ds generalizing n with
  | nil => simp [parseUintFrom, digitsVal]
  | cons c rest ih =>
    obtain ⟨d, hd, rfl⟩ := hall c (List.mem_cons_self _ _)
    have hf := digitChar_facts d hd
    have hge := digitsVal_ge rest (n * 10 + ((digitChar d).toNat - 48))
    simp only [digitsVal] at hv ⊢
    have hlt : ¬ n * 10 + ((digitChar d).toNat - 48) ≥ 2 ^ 64 := by omega
    simp only [parseUintFrom, hf.1, and_self, if_true, hlt, if_false]
    exact ih _ (fun c hc => hall c (List.mem_cons_of_mem _ hc)) hv

theorem fmtUintAux_val (fuel u : Nat) (acc : List Char) (h : u < 10 ^ fuel) :
    digitsVal (fmtUintAux fuel u acc) 0 = digitsVal acc u := by
  induction fuel generalizing u acc with
  | zero =>
    have : u = 0 := by simpa using h
    simp [fmtUintAux, this]
  | succ fuel ih =>
    by_cases hu : u < 10
    · simp [fmtUintAux, hu, digitsVal, (digitChar_facts u hu).2.1]
    · have h10 : u / 10 < 10 ^ fuel := by
        rw [Nat.div_lt_iff_lt_mul (by norm_num)]
        rw [pow_succ] at h
        exact h
      have hm := (digitChar_facts (u % 10) (Nat.mod_lt _ (by norm_num))).2.1
      simp only [fmtUintAux, hu, if_false]
      rw [ih _ _ h10]
      simp only [digitsVal, hm]
      congr 1
      omega

theorem fmtUintAux_dec (fuel u : Nat) (acc : List Char) (hacc : ∀ c ∈ acc, IsDec c) :
    ∀ c ∈ fmtUintAux fuel u acc, IsDec c := by
  induction fuel generalizing u acc with
  | zero => simpa [fmtUintAux] using hacc
  | succ fuel ih =>
    by_cases hu : u < 10
    · intro c hc
      simp only [fmtUintAux, hu, if_true, List.mem_cons] at hc
      rcases hc with rfl | hc
      · exact ⟨u, hu, rfl⟩
      · exact hacc c hc
    · simp only [fmtUintAux, hu, if_false]
      apply ih
      intro c hc
      rcases List.mem_cons.mp hc with rfl | hc
      · exact ⟨u % 10, Nat.mod_lt _ (by norm_num), rfl⟩
      · exact hacc c hc

theorem fmtUintAux_length (fuel u : Nat) (acc : List Char) :
    (fmtUintAux fuel u acc).length ≤ fuel + acc.length := by
  induction fuel generalizing u acc with
  | zero => simp [fmtUintAux]
  | succ fuel ih =>
    by_cases hu : u < 10
    · simp only [fmtUintAux, hu, if_true, List.length_cons]
      omega
    · simp only [fmtUintAux, hu, if_false]
      have := ih (u / 10) (digitChar (u % 10) :: acc)
      simp only [List.length_cons] at this
      omega

theorem fmtUintAux_ne_nil (fuel u : Nat) (acc : List Char) :
    fmtUintAux (fuel + 1) u acc ≠ [] := by
  induction fuel generalizing u acc with
  | zero =>
    by_cases hu : u < 10 <;> simp [fmtUintAux, hu]
  | succ fuel ih =>
    by_cases hu : u < 10
    · simp [fmtUintAux, hu]
    · rw [fmtUintAux]
      simp only [hu, if_false]
      exact ih _ _

/-- Scanning a run of decimal digits, with or without a minus sign in
front and with a newline behind, yields their value. -/
theorem fscanfPid_digits (neg : Bool) (ds : List Char) (hne : ds ≠ [])
    (hall : ∀ c ∈ ds, IsDec c) (hlen : ds.length ≤ 20)
    (hv : if neg then digitsVal ds 0 ≤ 2 ^ 63 else digitsVal ds 0 < 2 ^ 63) :
    fscanfPid ((if neg then '-' :: ds else ds) ++ ['\n']) =
      .ok (if neg then -(digitsVal ds 0 : Int) else (digitsVal ds 0 : Int)) := by
  obtain ⟨c, rest, rfl⟩ := List.exists_cons_of_ne_nil hne
  obtain ⟨d, hd, rfl⟩ := hall c (List.mem_cons_self _ _)
  have hf := digitChar_facts d hd
  have hnl : isDigitRune '\n' = false := by decide
  have htw : List.takeWhile isDigitRune ((digitChar d :: rest) ++ ['\n']) = digitChar d :: rest := by
    rw [List.takeWhile_append_of_pos]
    · simp [hnl]
    · intro a ha
      obtain ⟨k, hk, rfl⟩ := hall a ha
      exact (digitChar_facts k hk).2.2.2.1
  have hdw : List.dropWhile isDigitRune ((digitChar d :: rest) ++ ['\n']) = ['\n'] := by
    rw [List.dropWhile_append_of_pos]
    · simp [hnl]
    · intro a ha
      obtain ⟨k, hk, rfl⟩ := hall a ha
      exact (digitChar_facts k hk).2.2.2.1
  have hpu : parseUintFrom (digitChar d :: rest) 0 = .ok (digitsVal (digitChar d :: rest) 0) := by
    apply parseUintFrom_digits _ _ hall
    cases neg <;> simp at hv <;> omega
  have hmn : matchNewline ['\n'] = .ok [] := by decide
  have hlen2 : ((digitChar d :: rest) ++ ['\n']).length + 1 ≤ hugeWid := by
    simp only [List.length_append, List.length_cons, List.length_nil, hugeWid] at hlen ⊢
    omega
  have hss : skipSpace ((digitChar d :: rest) ++ ['\n']) = .ok ((digitChar d :: rest) ++ ['\n']) := by
    simp [skipSpace, hf]
  simp only [List.cons_append] at htw hdw hss hlen2
  cases neg with
  | false =>
    simp only [Bool.false_eq_true, if_false] at hv ⊢
    have hv2 : ¬ digitsVal (digitChar d :: rest) 0 ≥ 2 ^ 63 := by omega
    rw [fscanfPid, List.take_of_length_le (by simp only [List.cons_append]; omega)]
    simp only [List.cons_append, hss, scanInt, hf, or_self, if_false, htw, hdw, parseInt, hpu,
      hv2]
    simp [hmn]
  | true =>
    simp only [if_true] at hv ⊢
    have hv2 : ¬ digitsVal (digitChar d :: rest) 0 > 2 ^ 63 := by omega
    have hs1 : skipSpace ('-' :: digitChar d :: (rest ++ ['\n'])) =
        .ok ('-' :: digitChar d :: (rest ++ ['\n'])) := by
      have h1 : ('-' = '\r') = False := by decide
      have h2 : ('-' = '\n') = False := by decide
      have h3 : isSpace '-' = false := by decide
      simp [skipSpace, h1, h2, h3]
    rw [fscanfPid, List.take_of_length_le (by simp only [List.cons_append, List.length_cons] at hlen2 ⊢; omega)]
    simp only [List.cons_append, hs1, scanInt, hf, or_true, if_true, htw, hdw, parseInt, hpu,
      hv2]
    simp [hmn]

theorem fmtInt_scan (pid : Int) (h : inInt64 pid) : fscanfPid (pidLine pid) = .ok pid := by
  have hlt : pid.natAbs < 10 ^ 20 := by
    unfold inInt64 at h
    omega
  have hval : digitsVal (fmtUint pid.natAbs) 0 = pid.natAbs := by
    simpa [fmtUint, digitsVal] using fmtUintAux_val 20 pid.natAbs [] hlt
  have hdec : ∀ c ∈ fmtUint pid.natAbs, IsDec c :=
    fmtUintAux_dec 20 pid.natAbs [] (by simp)
  have hlen : (fmtUint pid.natAbs).length ≤ 20 := by
    simpa [fmtUint] using fmtUintAux_length 20 pid.natAbs []
  have hne : fmtUint pid.natAbs ≠ [] := fmtUintAux_ne_nil 19 pid.natAbs []
  unfold inInt64 at h
  by_cases hneg : pid < 0
  · have := fscanfPid_digits true (fmtUint pid.natAbs) hne hdec hlen (by simp [hval]; omega)
    simp only [if_true, hval] at this
    simp only [pidLine, fmtInt, hneg, if_true, this]
    congr 1
    omega
  · have := fscanfPid_digits false (fmtUint pid.natAbs) hne hdec hlen (by simp [hval]; omega)
    simp only [Bool.false_eq_true, if_false, hval] at this
    simp only [pidLine, fmtInt, hneg, if_false, this]
    congr 1
    omega

/-! ## Facts about `lockFile` -/

theorem openRead_ok (sys : Sys) (d : Disk) (filename : Path) (ino : Nat)
    (h : openRead sys d filename = .ok ino) :
    sys.openFault = none ∧ d.dir filename = some ino := by
  unfold openRead at h
  rcases hf : sys.openFault with _ | f
  · rcases hdir : d.dir filename with _ | j
    · simp [hf, hdir] at h
    · simp only [hf, hdir, Except.ok.injEq] at h
      subst h
      exact ⟨rfl, rfl⟩
  · simp [hf] at h

theorem scanFile_ok (sys : Sys) (d : Disk) (ino : Nat) (p : Int)
    (h : scanFile sys d ino = .ok p) :
    sys.readFault = false ∧ fscanfPid (d.data ino) = .ok p := by
  unfold scanFile at h
  cases hr : sys.readFault
  · simpa [hr] using h
  · simp [hr] at h

theorem lockFile_stale (sys : Sys) (filename : Path) (d : Disk) (ino : Nat) (p : Int)
    (hfile : d.dir filename = some ino) (hparse : fscanfPid (d.data ino) = .ok p)
    (hopen : sys.openFault = none) (hread : sys.readFault = false)
    (hfind : sys.findProcess p = true) (hsig : sys.signal0 p = some processFinished)
    (hremove : sys.removeFault = false) (hcreate : sys.createFault = false)
    (hwrite : sys.writeFault = none) :
    (lockFile sys filename d).err = none ∧
      (lockFile sys filename d).disk.read filename = some (pidLine sys.pid) := by
  simp [lockFile, checkExisting, openRead, scanFile, osRemove, createExcl, writePid, hfile,
    hparse, hopen, hread, hfind, hsig, hremove, hcreate, hwrite, Disk.unlink, Disk.create,
    Disk.append, Disk.read]

theorem lockFile_fresh (sys : Sys) (filename : Path) (d : Disk)
    (hfree : d.dir filename = none) (hopen : sys.openFault = none)
    (hcreate : sys.createFault = false) (hwrite : sys.writeFault = none) :
    (lockFile sys filename d).err = none ∧
      (lockFile sys filename d).disk.read filename = some (pidLine sys.pid) := by
  simp [lockFile, checkExisting, openRead, createExcl, writePid, hfree, hopen, hcreate,
    hwrite, Disk.create, Disk.append, Disk.read]

theorem skipSpace_mem (l l1 : List Char) (h : skipSpace l = .ok l1) : ∀ c ∈ l1, c ∈ l := by
  induction l with
  | nil =>
    simp only [skipSpace, Except.ok.injEq] at h
    subst h
    simp
  | cons r rest ih =>
    rw [skipSpace] at h
    split at h
    · intro c hc
      exact List.mem_cons_of_mem _ (ih h c hc)
    · split at h
      · cases h
      · split at h
        · simp only [Except.ok.injEq] at h
          subst h
          simp
        · intro c hc
          exact List.mem_cons_of_mem _ (ih h c hc)

theorem scanInt_no_digit (input : List Char)
    (h : ∀ c ∈ input, ¬ ('0' ≤ c ∧ c ≤ '9')) : ∃ e, scanInt input = .error e := by
  unfold scanInt
  rcases hs : skipSpace input with e | l
  · exact ⟨e, rfl⟩
  · have hl := skipSpace_mem input l hs
    cases l with
    | nil => exact ⟨_, rfl⟩
    | cons c rest =>
      have key : ∀ d ds, (∀ x ∈ d :: ds, x ∈ input) →
          ∃ e, (if (!isDigitRune d) = true then (Except.error ScanErr.expectedInteger :
              Except ScanErr (Int × List Char))
            else
              match parseInt (decide (c = '-')) ((d :: ds).takeWhile isDigitRune) with
              | .error e => .error e
              | .ok v => .ok (v, (d :: ds).dropWhile isDigitRune)) = .error e := by
        intro d ds hsub
        by_cases hd : isDigitRune d = true
        · have hnd := h d (hsub d (List.mem_cons_self _ _))
          simp [hd, List.takeWhile_cons, parseInt, parseUintFrom, hnd]
        · simp [hd]
      by_cases hsign : c = '+' ∨ c = '-'
      · simp only [hsign, if_true]
        cases rest with
        | nil => exact ⟨_, rfl⟩
        | cons d ds =>
          exact key d ds (fun x hx => hl x (List.mem_cons_of_mem _ hx))
      · simp only [hsign, if_false]
        exact key c rest hl

/-- A text without any decimal digit does not scan. -/
theorem fscanfPid_no_digit (content : List Char)
    (h : ∀ c ∈ content, ¬ ('0' ≤ c ∧ c ≤ '9')) : ∃ e, fscanfPid content = .error e := by
  unfold fscanfPid
  rcases hs : skipSpace (content.take hugeWid) with e | l
  · exact ⟨e, rfl⟩
  · have hl := skipSpace_mem _ l hs
    obtain ⟨e, he⟩ := scanInt_no_digit l
      (fun c hc => h c (List.mem_of_mem_take (hl c hc)))
    exact ⟨e, by simp [he]⟩

/-- Running alone, the machine of system calls does what `lockFile` does. -/
theorem runProc_lockFile (sys : Sys) (filename : Path) (d : Disk) :
    runProc sys filename 6 (.atOpen, d) =
      (.done (lockFile sys filename d).err, (lockFile sys filename d).disk) := by
  simp only [runProc, lockFile, checkExisting]
  rcases ho : openRead sys d filename with f | ino
  · cases f with
    | notPathError => simp [stepProc, ho]
    | pathError msg =>
      by_cases hm : msg = noSuchFile
      · rcases hc : createExcl sys d filename with _ | ⟨d1, i1⟩
        · simp [stepProc, ho, hm, hc]
        · rcases hw : writePid sys d1 i1 with ⟨d2, b⟩
          cases b <;> simp [stepProc, ho, hm, hc, hw]
      · simp [stepProc, ho, hm]
  · rcases hs : scanFile sys d ino with e | pid
    · simp [stepProc, ho, hs]
    · cases hf : sys.findProcess pid
      · simp [stepProc, ho, hs, hf]
      · rcases hsig : sys.signal0 pid with _ | msg
        · simp [stepProc, ho, hs, hf, hsig]
        · by_cases hm : msg = processFinished
          · rcases hr : osRemove sys.removeFault d filename with _ | d1
            · simp [stepProc, ho, hs, hf, hsig, hm, hr]
            · rcases hc : createExcl sys d1 filename with _ | ⟨d2, i2⟩
              · simp [stepProc, ho, hs, hf, hsig, hm, hr, hc]
              · rcases hw : writePid sys d2 i2 with ⟨d3, b⟩
                cases b <;> simp [stepProc, ho, hs, hf, hsig, hm, hr, hc, hw]
          · simp [stepProc, ho, hs, hf, hsig, hm]

/-! ## Mutual exclusion on a free lock path -/

theorem DiskOk_symm (known : Int → Prop) (filename : Path) (d : Disk) (a b : PC)
    (h : DiskOk known filename d a b) : DiskOk known filename d b a := by
  unfold DiskOk at h ⊢
  refine ⟨?_, fun hab => h.2 ⟨hab.2, hab.1⟩⟩
  have h1 := h.1
  rcases hdir : d.dir filename with _ | ino
  · simp only [hdir] at h1 ⊢
    exact ⟨h1.2, h1.1⟩
  · simp only [hdir] at h1 ⊢
    exact h1

theorem DiskOk_congr (known : Int → Prop) (filename : Path) (d : Disk) (a a1 b : PC)
    (hiff : Owns a1 → Owns a) (h : DiskOk known filename d a b) :
    DiskOk known filename d a1 b := by
  unfold DiskOk at h ⊢
  refine ⟨?_, fun hab => h.2 ⟨hiff hab.1, hab.2⟩⟩
  have h1 := h.1
  rcases hdir : d.dir filename with _ | ino
  · simp only [hdir] at h1 ⊢
    exact ⟨fun ho => h1.1 (hiff ho), h1.2⟩
  · simp only [hdir] at h1 ⊢
    exact h1

theorem not_owns_atCreate : ¬ Owns .atCreate := by
  simp [Owns]

theorem not_owns_atRead (i : Nat) : ¬ Owns (.atRead i) := by
  simp [Owns]

theorem not_owns_atProbe (p : Int) : ¬ Owns (.atProbe p) := by
  simp [Owns]

theorem fscanfPid_nil : fscanfPid [] = .error .unexpectedEOF := by
  decide

/-- One system call of the mover keeps the invariant's core, unless the
mover fails. -/
theorem stepProc_core (known : Int → Prop) (sys : Sys) (filename : Path) (d : Disk)
    (pc po : PC) (hself : known sys.pid) (hlive : ∀ p, known p → sys.signal0 p = none)
    (hrange : ∀ p, known p → inInt64 p) (hpc : ProcOk known filename d pc)
    (hpo : ProcOk known filename d po) (hd : DiskOk known filename d pc po) :
    Failed (stepProc sys filename pc d).1 ∨
      (ProcOk known filename (stepProc sys filename pc d).2 (stepProc sys filename pc d).1 ∧
        ProcOk known filename (stepProc sys filename pc d).2 po ∧
        DiskOk known filename (stepProc sys filename pc d).2 (stepProc sys filename pc d).1
          po) := by
  have hfail : ∀ e, Failed (PC.done (some e)) := fun e => ⟨e, rfl⟩
  cases pc with
  | atOpen =>
    simp only [stepProc]
    rcases ho : openRead sys d filename with f | ino
    · cases f with
      | notPathError => exact Or.inl (hfail _)
      | pathError msg =>
        by_cases hm : msg = noSuchFile
        · simp only [hm, ne_eq, not_true_eq_false, if_false]
          exact Or.inr ⟨trivial, hpo,
            DiskOk_congr known filename d _ _ _ (fun h => absurd h not_owns_atCreate) hd⟩
        · simp only [ne_eq, hm, not_false_eq_true, if_true]
          exact Or.inl (hfail _)
    · refine Or.inr ⟨?_, hpo,
        DiskOk_congr known filename d _ _ _ (fun h => absurd h (not_owns_atRead ino)) hd⟩
      unfold openRead at ho
      rcases hf : sys.openFault with _ | f
      · rcases hdir : d.dir filename with _ | j
        · simp [hf, hdir] at ho
        · simp only [hf, hdir, Except.ok.injEq] at ho
          subst ho
          exact hdir
      · simp [hf] at ho
  | atRead i =>
    simp only [stepProc, scanFile]
    have hdi : d.dir filename = some i := hpc
    have hdata := hd.1
    simp only [hdi] at hdata
    cases hr : sys.readFault
    · simp only [Bool.false_eq_true, if_false]
      rcases hdata with h0 | ⟨p, hk, hp⟩
      · rw [h0, fscanfPid_nil]
        exact Or.inl (hfail _)
      · rw [hp, fmtInt_scan p (hrange p hk)]
        exact Or.inr ⟨hk, hpo,
          DiskOk_congr known filename d _ _ _ (fun h => absurd h (not_owns_atProbe p)) hd⟩
    · exact Or.inl (hfail _)
  | atProbe p =>
    have hk : known p := hpc
    simp only [stepProc, hlive p hk]
    cases sys.findProcess p <;> exact Or.inl (hfail _)
  | atRemove => exact absurd hpc (by simp [ProcOk])
  | atCreate =>
    simp only [stepProc, createExcl]
    cases hc : sys.createFault
    · rcases hdir : d.dir filename with _ | j
      · simp only [Bool.false_eq_true, if_false]
        have hno := hd.1
        simp only [hdir] at hno
        refine Or.inr ⟨by simp [ProcOk, Disk.create], ?_, ?_⟩
        · cases po with
          | atRead j => exact absurd (hdir.symm.trans hpo) (by simp)
          | atWrite j => exact absurd (hdir.symm.trans hpo.1) (by simp)
          | atRemove => exact absurd hpo (by simp [ProcOk])
          | atProbe q => exact hpo
          | atOpen => trivial
          | atCreate => trivial
          | done e => trivial
        · refine ⟨by simp [Disk.create], fun h => hno.2 h.2⟩
      · exact Or.inl (hfail _)
    · exact Or.inl (hfail _)
  | atWrite i =>
    simp only [stepProc, writePid]
    obtain ⟨hdi, hempty⟩ : d.dir filename = some i ∧ d.data i = [] := hpc
    have hown : Owns (PC.atWrite i) := Or.inl ⟨i, rfl⟩
    rcases hw : sys.writeFault with _ | k
    · refine Or.inr ⟨trivial, ?_, ?_⟩
      · cases po with
        | atRead j => exact hpo
        | atWrite j => exact absurd ⟨hown, Or.inl ⟨j, rfl⟩⟩ hd.2
        | atRemove => exact absurd hpo (by simp [ProcOk])
        | atProbe q => exact hpo
        | atOpen => trivial
        | atCreate => trivial
        | done e => trivial
      · refine ⟨?_, fun h => hd.2 ⟨hown, h.2⟩⟩
        simp only [Disk.append, hdi, if_true, hempty, List.nil_append]
        exact Or.inr ⟨sys.pid, hself, rfl⟩
    · exact Or.inl (hfail _)
  | done err => exact Or.inr ⟨hpc, hpo, hd⟩

theorem stepProc_failed (sys : Sys) (filename : Path) (pc : PC) (d : Disk)
    (h : Failed pc) : Failed (stepProc sys filename pc d).1 := by
  obtain ⟨e, rfl⟩ := h
  exact ⟨e, rfl⟩

/-- Every step of either process keeps the invariant. -/
theorem stepTwo_safe (known : Int → Prop) (sysA sysB : Sys) (filename : Path) (who : Who)
    (s : Two) (hA : known sysA.pid) (hB : known sysB.pid)
    (hliveA : ∀ p, known p → sysA.signal0 p = none)
    (hliveB : ∀ p, known p → sysB.signal0 p = none) (hrange : ∀ p, known p → inInt64 p)
    (h : Safe known filename s) : Safe known filename (stepTwo sysA sysB filename who s) := by
  cases who with
  | A =>
    simp only [stepTwo, Safe]
    rcases h with hf | hf | ⟨ha, hb, hd⟩
    · exact Or.inl (stepProc_failed sysA filename s.a s.disk hf)
    · exact Or.inr (Or.inl hf)
    · rcases stepProc_core known sysA filename s.disk s.a s.b hA hliveA hrange ha hb hd
        with hf | hc
      · exact Or.inl hf
      · exact Or.inr (Or.inr hc)
  | B =>
    simp only [stepTwo, Safe]
    rcases h with hf | hf | ⟨ha, hb, hd⟩
    · exact Or.inl hf
    · exact Or.inr (Or.inl (stepProc_failed sysB filename s.b s.disk hf))
    · rcases stepProc_core known sysB filename s.disk s.b s.a hB hliveB hrange hb ha
        (DiskOk_symm known filename s.disk s.a s.b hd) with hf | ⟨h1, h2, h3⟩
      · exact Or.inr (Or.inl hf)
      · exact Or.inr (Or.inr ⟨h2, h1, DiskOk_symm known filename _ _ _ h3⟩)

theorem runTwo_safe (known : Int → Prop) (sysA sysB : Sys) (filename : Path)
    (schedule : List Who) (s : Two) (hA : known sysA.pid) (hB : known sysB.pid)
    (hliveA : ∀ p, known p → sysA.signal0 p = none)
    (hliveB : ∀ p, known p → sysB.signal0 p = none) (hrange : ∀ p, known p → inInt64 p)
    (h : Safe known filename s) : Safe known filename (runTwo sysA sysB filename schedule s) := by
  induction schedule generalizing s with
  | nil => exact h
  | cons who rest ih =>
    exact ih _ (stepTwo_safe known sysA sysB filename who s hA hB hliveA hliveB hrange h)

/-- Two live processes that call `lockFile` on a free lock path never both
return nil, whatever the interleaving of their system calls and whichever
of the calls fail. -/
theorem lockFile_exclusive_on_free_path (sysA sysB : Sys) (filename : Path) (d : Disk)
    (schedule : List Who) (hfree : d.dir filename = none)
    (hAA : sysA.signal0 sysA.pid = none) (hAB : sysA.signal0 sysB.pid = none)
    (hBA : sysB.signal0 sysA.pid = none) (hBB : sysB.signal0 sysB.pid = none)
    (hrA : inInt64 sysA.pid) (hrB : inInt64 sysB.pid) :
    ¬ ((runTwo sysA sysB filename schedule (Two.init d)).a = .done none ∧
        (runTwo sysA sysB filename schedule (Two.init d)).b = .done none) := by
  have hinit : Safe (fun p => p = sysA.pid ∨ p = sysB.pid) filename (Two.init d) := by
    refine Or.inr (Or.inr ⟨trivial, trivial, ?_, ?_⟩)
    · simp [Two.init, hfree, Owns]
    · simp [Two.init, Owns]
  have hsafe := runTwo_safe (fun p => p = sysA.pid ∨ p = sysB.pid) sysA sysB filename
    schedule (Two.init d) (Or.inl rfl) (Or.inr rfl)
    (by rintro p (rfl | rfl) <;> assumption) (by rintro p (rfl | rfl) <;> assumption)
    (by rintro p (rfl | rfl) <;> assumption) hinit
  rintro ⟨ha, hb⟩
  rcases hsafe with ⟨e, he⟩ | ⟨e, he⟩ | ⟨_, _, hd⟩
  · rw [ha] at he
    cases he
  · rw [hb] at he
    cases he
  · exact hd.2 ⟨Or.inr ha, Or.inr hb⟩

/-! ## Facts about the acquisition loop and the supervision -/

theorem acquire_ok (w : World) (lockfile : Path) (wait : Int) (fuel i now : Nat) (d : Disk)
    (h : (lockFile (w.lockSys i) lockfile d).err = none) :
    acquire w lockfile wait (fuel + 1) i now d =
      ⟨.locked, (lockFile (w.lockSys i) lockfile d).disk, [.lockFile none]⟩ := by
  simp [acquire, h]

theorem acquire_giveUp (w : World) (lockfile : Path) (wait : Int) (fuel i now : Nat) (d : Disk)
    (e : LockErr) (h : (lockFile (w.lockSys i) lockfile d).err = some e)
    (hg : wait > -1 ∧ since (now + w.lockTime i) ≥ secondsDur wait) :
    acquire w lockfile wait (fuel + 1) i now d =
      ⟨.gaveUp, (lockFile (w.lockSys i) lockfile d).disk,
        [.lockFile (some e), .logErr (.lockFileError e), .logErr (.couldNotObtain wait)]⟩ := by
  simp only [acquire, h, hg, and_self, if_true]

theorem acquire_retry (w : World) (lockfile : Path) (wait : Int) (fuel i now : Nat) (d : Disk)
    (e : LockErr) (h : (lockFile (w.lockSys i) lockfile d).err = some e)
    (hg : ¬ (wait > -1 ∧ since (now + w.lockTime i) ≥ secondsDur wait)) :
    acquire w lockfile wait (fuel + 1) i now d =
      ⟨(acquire w lockfile wait fuel (i + 1) (now + w.lockTime i + w.sleepTime i)
          (w.others i (lockFile (w.lockSys i) lockfile d).disk)).status,
        (acquire w lockfile wait fuel (i + 1) (now + w.lockTime i + w.sleepTime i)
          (w.others i (lockFile (w.lockSys i) lockfile d).disk)).disk,
        failedRound e ++
          (acquire w lockfile wait fuel (i + 1) (now + w.lockTime i + w.sleepTime i)
            (w.others i (lockFile (w.lockSys i) lockfile d).disk)).trace⟩ := by
  simp only [acquire, h, hg, if_false, failedRound]

theorem attempts_append (s t : List Event) : attempts (s ++ t) = attempts s + attempts t := by
  induction s with
  | nil => simp [attempts]
  | cons e s ih => cases e <;> simp [attempts, ih]; omega

theorem sleeps_append (s t : List Event) : sleeps (s ++ t) = sleeps s + sleeps t := by
  induction s with
  | nil => simp [sleeps]
  | cons e s ih => cases e <;> simp [sleeps, ih]; omega

theorem releases_append (s t : List Event) :
    releases (s ++ t) = releases s + releases t := by
  induction s with
  | nil => simp [releases]
  | cons e s ih => cases e <;> simp [releases, ih]; omega

theorem starts_append (s t : List Event) : starts (s ++ t) = (starts s || starts t) := by
  induction s with
  | nil => simp [starts]
  | cons e s ih => cases e <;> simp [starts, ih]

/-- The loop neither starts the command nor releases the lock. -/
theorem acquire_quiet (w : World) (lockfile : Path) (wait : Int) (fuel i now : Nat)
    (d : Disk) :
    starts (acquire w lockfile wait fuel i now d).trace = false ∧
      releases (acquire w lockfile wait fuel i now d).trace = 0 := by
  induction fuel generalizing i now d with
  | zero => simp [acquire, starts, releases]
  | succ fuel ih =>
    rcases h : (lockFile (w.lockSys i) lockfile d).err with _ | e
    · simp [acquire_ok _ _ _ _ _ _ _ h, starts, releases]
    · by_cases hg : wait > -1 ∧ since (now + w.lockTime i) ≥ secondsDur wait
      · simp [acquire_giveUp _ _ _ _ _ _ _ e h hg, starts, releases]
      · rw [acquire_retry _ _ _ _ _ _ _ e h hg]
        have := ih (i + 1) (now + w.lockTime i + w.sleepTime i)
          (w.others i (lockFile (w.lockSys i) lockfile d).disk)
        simp [starts_append, releases_append, failedRound, starts, releases, this]

/-- The give-up test succeeds once `wait` seconds have passed. -/
theorem since_ge_secondsDur (wait : Int) (now : Nat) (hwait : 0 ≤ wait)
    (h : wait * second ≤ (now : Int)) : since now ≥ secondsDur wait := by
  unfold since secondsDur wrap64
  have h0 : 0 ≤ wait * second := Int.mul_nonneg hwait (by unfold second; norm_num)
  generalize wait * second = x at h h0
  simp only [ge_iff_le, le_min_iff]
  constructor <;> omega

/-- With a bounded wait and sleeps of at least a second, a loop whose
attempts all fail gives up within `k + 1` attempts once all but `k`
seconds of the wait have passed. -/
theorem acquire_bounded_aux (w : World) (lockfile : Path) (wait : Int) (hwait : 0 ≤ wait)
    (hsleep : ∀ i, 1000000000 ≤ w.sleepTime i) (k : Nat) :
    ∀ (fuel i now : Nat) (d : Disk), (wait - k) * second ≤ (now : Int) → k + 1 ≤ fuel →
      (∀ f, (acquire w lockfile wait f i now d).status ≠ .locked) →
      (acquire w lockfile wait fuel i now d).status = .gaveUp ∧
        1 ≤ attempts (acquire w lockfile wait fuel i now d).trace ∧
        attempts (acquire w lockfile wait fuel i now d).trace ≤ k + 1 ∧
        sleeps (acquire w lockfile wait fuel i now d).trace + 1 =
          attempts (acquire w lockfile wait fuel i now d).trace := by
  induction k with
  | zero =>
    intro fuel i now d hnow hfuel hfail
    obtain ⟨fuel, rfl⟩ : ∃ g, fuel = g + 1 := ⟨fuel - 1, by omega⟩
    rcases h : (lockFile (w.lockSys i) lockfile d).err with _ | e
    · have := hfail 1
      simp [acquire_ok _ _ _ _ _ _ _ h] at this
    · have hg : wait > -1 ∧ since (now + w.lockTime i) ≥ secondsDur wait := by
        refine ⟨by omega, since_ge_secondsDur wait _ hwait ?_⟩
        simp only [Nat.cast_zero, sub_zero] at hnow
        push_cast
        omega
      simp [acquire_giveUp _ _ _ _ _ _ _ e h hg, attempts, sleeps]
  | succ k ih =>
    intro fuel i now d hnow hfuel hfail
    obtain ⟨fuel, rfl⟩ : ∃ g, fuel = g + 1 := ⟨fuel - 1, by omega⟩
    rcases h : (lockFile (w.lockSys i) lockfile d).err with _ | e
    · have := hfail 1
      simp [acquire_ok _ _ _ _ _ _ _ h] at this
    · by_cases hg : wait > -1 ∧ since (now + w.lockTime i) ≥ secondsDur wait
      · simp [acquire_giveUp _ _ _ _ _ _ _ e h hg, attempts, sleeps]
      · rw [acquire_retry _ _ _ _ _ _ _ e h hg]
        have hrest := ih fuel (i + 1) (now + w.lockTime i + w.sleepTime i)
          (w.others i (lockFile (w.lockSys i) lockfile d).disk)
          (by
            have := hsleep i
            push_cast at hnow ⊢
            unfold second at hnow ⊢
            omega)
          (by omega)
          (by
            intro f
            have := hfail (f + 1)
            rw [acquire_retry _ _ _ _ _ _ _ e h hg] at this
            exact this)
        obtain ⟨h1, h2, h3, h4⟩ := hrest
        have ha : attempts (failedRound e) = 1 := rfl
        have hs : sleeps (failedRound e) = 1 := rfl
        simp only [attempts_append, sleeps_append, ha, hs]
        refine ⟨h1, ?_, ?_, ?_⟩ <;> omega

theorem attempts_failedRounds (errs : List LockErr) :
    attempts (failedRounds errs) = errs.length := by
  induction errs with
  | nil => rfl
  | cons e es ih =>
    have ha : attempts (failedRound e) = 1 := rfl
    simp [failedRounds, attempts_append, ha, ih]
    omega

theorem sleeps_failedRounds (errs : List LockErr) :
    sleeps (failedRounds errs) = errs.length := by
  induction errs with
  | nil => rfl
  | cons e es ih =>
    have hs : sleeps (failedRound e) = 1 := rfl
    simp [failedRounds, sleeps_append, hs, ih]
    omega

/-- Without a bound on the wait the loop never gives up, and as long as no
attempt succeeds its trace is one failed round for each iteration. -/
theorem acquire_unbounded_aux (w : World) (lockfile : Path) (wait : Int) (hwait : wait < 0)
    (n : Nat) :
    ∀ (i now : Nat) (d : Disk), (acquire w lockfile wait n i now d).status ≠ .locked →
      ∃ errs : List LockErr, errs.length = n ∧
        (acquire w lockfile wait n i now d).status = .looping ∧
        (acquire w lockfile wait n i now d).trace = failedRounds errs ∧
        ∃ r rest, (acquire w lockfile wait (n + 1) i now d).trace =
          failedRounds errs ++ .lockFile r :: rest := by
  have hng : ∀ t : Int, ¬ (wait > -1 ∧ t ≥ secondsDur wait) := by
    intro t h
    omega
  induction n with
  | zero =>
    intro i now d _
    refine ⟨[], rfl, by simp [acquire], by simp [acquire, failedRounds], ?_⟩
    rcases h : (lockFile (w.lockSys i) lockfile d).err with _ | e
    · exact ⟨none, [], by simp [acquire_ok _ _ _ _ _ _ _ h, failedRounds]⟩
    · rw [acquire_retry _ _ _ _ _ _ _ e h (hng _)]
      exact ⟨some e, _, by simp [failedRounds, failedRound]; rfl⟩
  | succ n ih =>
    intro i now d hfail
    rcases h : (lockFile (w.lockSys i) lockfile d).err with _ | e
    · simp [acquire_ok _ _ _ _ _ _ _ h] at hfail
    · rw [acquire_retry _ _ _ _ _ _ _ e h (hng _)] at hfail ⊢
      obtain ⟨errs, hlen, hst, htr, r, rest, hnext⟩ := ih (i + 1)
        (now + w.lockTime i + w.sleepTime i)
        (w.others i (lockFile (w.lockSys i) lockfile d).disk) hfail
      refine ⟨e :: errs, by simp [hlen], hst, by simp [failedRounds, htr], r, rest, ?_⟩
      rw [acquire_retry _ _ _ _ _ _ _ e h (hng _)]
      simp [failedRounds, hnext]

theorem acquire_never_gives_up (w : World) (lockfile : Path) (wait : Int) (hwait : wait < 0)
    (fuel i now : Nat) (d : Disk) :
    (acquire w lockfile wait fuel i now d).status ≠ .gaveUp := by
  induction fuel generalizing i now d with
  | zero => simp [acquire]
  | succ fuel ih =>
    rcases h : (lockFile (w.lockSys i) lockfile d).err with _ | e
    · simp [acquire_ok _ _ _ _ _ _ _ h]
    · rw [acquire_retry _ _ _ _ _ _ _ e h (by omega)]
      exact ih _ _ _

/-- A loop that has got the lock ends its trace with the successful call. -/
theorem acquire_locked_last (w : World) (lockfile : Path) (wait : Int) (fuel i now : Nat)
    (d : Disk) (h : (acquire w lockfile wait fuel i now d).status = .locked) :
    ∃ pre, (acquire w lockfile wait fuel i now d).trace = pre ++ [.lockFile none] := by
  induction fuel generalizing i now d with
  | zero => simp [acquire] at h
  | succ fuel ih =>
    rcases he : (lockFile (w.lockSys i) lockfile d).err with _ | e
    · exact ⟨[], by simp [acquire_ok _ _ _ _ _ _ _ he]⟩
    · by_cases hg : wait > -1 ∧ since (now + w.lockTime i) ≥ secondsDur wait
      · simp [acquire_giveUp _ _ _ _ _ _ _ e he hg] at h
      · rw [acquire_retry _ _ _ _ _ _ _ e he hg] at h ⊢
        obtain ⟨pre, hpre⟩ := ih _ _ _ h
        exact ⟨failedRound e ++ pre, by simp [hpre]⟩

theorem acquire_never_locks (w : World) (lockfile : Path) (wait : Int)
    (hfail : ∀ i d, (lockFile (w.lockSys i) lockfile d).err ≠ none) (fuel i now : Nat)
    (d : Disk) : (acquire w lockfile wait fuel i now d).status ≠ .locked := by
  induction fuel generalizing i now d with
  | zero => simp [acquire]
  | succ fuel ih =>
    rcases h : (lockFile (w.lockSys i) lockfile d).err with _ | e
    · exact absurd h (hfail i d)
    · by_cases hg : wait > -1 ∧ since (now + w.lockTime i) ≥ secondsDur wait
      · simp [acquire_giveUp _ _ _ _ _ _ _ e h hg]
      · rw [acquire_retry _ _ _ _ _ _ _ e h hg]
        exact ih _ _ _

theorem lockFile_createFault (sys : Sys) (filename : Path) (d : Disk)
    (h : sys.createFault = true) : (lockFile sys filename d).err ≠ none := by
  unfold lockFile
  rcases hc : checkExisting sys filename d with ⟨_ | e, d1, calls⟩
  · simp [createExcl, h]
  · simp

theorem supervise_quiet (w : World) (timeout : Int) (command : List String) :
    releases (supervise w timeout command).2 = 0 := by
  unfold supervise
  split
  · rfl
  · split_ifs <;> first | rfl | (split <;> rfl)

theorem supervise_not_looping (w : World) (timeout : Int) (command : List String) :
    (supervise w timeout command).1 ≠ .looping := by
  unfold supervise
  split
  · simp
  · cases w.startFails <;> cases w.waitFails <;> cases w.killFails <;> cases w.exitAfter <;>
      cases timerFirst w (secondsDur timeout) <;> by_cases ht : timeout = -1 <;> simp [ht]

theorem releases_zero (t : List Event) (h : releases t = 0) (ok : Bool) :
    Event.removeLock ok ∉ t := by
  induction t with
  | nil => simp
  | cons e t ih =>
    cases e <;> simp_all [releases]

theorem release_once (w : World) (lockfile : Path) (d : Disk) :
    releases (release w lockfile d).2 = 1 ∧
      (Event.removeLock true ∈ (release w lockfile d).2 →
        (release w lockfile d).1.read lockfile = none) := by
  unfold release osRemove
  cases w.releaseFault
  · rcases h : d.dir lockfile with _ | ino
    · simp [releases]
    · simp [releases, h, Disk.read, Disk.unlink]
  · simp [releases]

/-- More fuel does not change a loop that has ended. -/
theorem acquire_stable (w : World) (lockfile : Path) (wait : Int) (fuel extra i now : Nat)
    (d : Disk) (h : (acquire w lockfile wait fuel i now d).status ≠ .looping) :
    acquire w lockfile wait (fuel + extra) i now d = acquire w lockfile wait fuel i now d := by
  induction fuel generalizing i now d with
  | zero => simp [acquire] at h
  | succ fuel ih =>
    rw [show fuel + 1 + extra = (fuel + extra) + 1 by omega]
    rcases he : (lockFile (w.lockSys i) lockfile d).err with _ | e
    · rw [acquire_ok _ _ _ _ _ _ _ he, acquire_ok _ _ _ _ _ _ _ he]
    · by_cases hg : wait > -1 ∧ since (now + w.lockTime i) ≥ secondsDur wait
      · rw [acquire_giveUp _ _ _ _ _ _ _ e he hg, acquire_giveUp _ _ _ _ _ _ _ e he hg]
      · rw [acquire_retry _ _ _ _ _ _ _ e he hg] at h ⊢
        rw [acquire_retry _ _ _ _ _ _ _ e he hg, ih _ _ _ h]

/-- More fuel does not change a run of `glock` that has ended. -/
theorem glock_stable (w : World) (lockfile : Path) (wait timeout : Int)
    (command : List String) (fuel extra : Nat) (d : Disk)
    (h : (glock w lockfile wait timeout command fuel d).result ≠ .looping) :
    glock w lockfile wait timeout command (fuel + extra) d =
      glock w lockfile wait timeout command fuel d := by
  have hs : (acquire w lockfile wait fuel 0 0 d).status ≠ .looping := by
    intro hl
    apply h
    simp [glock, hl]
  simp only [glock, acquire_stable w lockfile wait fuel extra 0 0 d hs]

/-- A successful `lockFile` call leaves the caller's pid line at the path. -/
theorem lockFile_ok_file (sys : Sys) (filename : Path) (d : Disk)
    (h : (lockFile sys filename d).err = none) :
    (lockFile sys filename d).disk.read filename = some (pidLine sys.pid) := by
  unfold lockFile at h ⊢
  rcases hc : checkExisting sys filename d with ⟨_ | e, d1, calls⟩
  · simp only [hc] at h ⊢
    unfold createExcl writePid at h ⊢
    cases hcf : sys.createFault
    · rcases hdir : d1.dir filename with _ | j
      · rcases hw : sys.writeFault with _ | k
        · simp [hcf, hdir, hw, Disk.read, Disk.create, Disk.append]
        · simp [hcf, hdir, hw] at h
      · simp [hcf, hdir] at h
    · simp [hcf] at h
  · simp [hc] at h

/-- A loop that has got the lock leaves the pid line of the caller at the
lock path. -/
theorem acquire_locked_file (w : World) (lockfile : Path) (wait : Int) (fuel i now : Nat)
    (d : Disk) (h : (acquire w lockfile wait fuel i now d).status = .locked) :
    ∃ j, (acquire w lockfile wait fuel i now d).disk.read lockfile =
      some (pidLine (w.lockSys j).pid) := by
  induction fuel generalizing i now d with
  | zero => simp [acquire] at h
  | succ fuel ih =>
    rcases he : (lockFile (w.lockSys i) lockfile d).err with _ | e
    · rw [acquire_ok _ _ _ _ _ _ _ he]
      exact ⟨i, lockFile_ok_file _ _ _ he⟩
    · by_cases hg : wait > -1 ∧ since (now + w.lockTime i) ≥ secondsDur wait
      · simp [acquire_giveUp _ _ _ _ _ _ _ e he hg] at h
      · rw [acquire_retry _ _ _ _ _ _ _ e he hg] at h ⊢
        exact ih _ _ _ h

/-- What the deferred function does: one `os.Remove`, which succeeds exactly
when no fault is injected and the path names a file, and then unlinks it;
a report when it failed; the line "released lockfile". -/
theorem release_spec (w : World) (lockfile : Path) (d : Disk) :
    ∃ ok : Bool,
      (release w lockfile d).2 =
        .removeLock ok ::
          ((if ok then [] else [.logErr .couldNotRemoveLockfile]) ++ [.log .released]) ∧
      (ok = true ↔ w.releaseFault = false ∧ d.dir lockfile ≠ none) ∧
      (release w lockfile d).1 = (if ok then d.unlink lockfile else d) ∧
      (w.releaseFault = false → (release w lockfile d).1.read lockfile = none) := by
  unfold release osRemove
  cases hf : w.releaseFault
  · rcases h : d.dir lockfile with _ | ino
    · exact ⟨false, by simp, by simp, by simp, by simp [Disk.read, h]⟩
    · exact ⟨true, by simp, by simp, by simp, by simp [Disk.read, Disk.unlink]⟩
  · exact ⟨false, by simp, by simp, by simp, by simp⟩

/-! ## The claims -/

/-- C1, refuted on the code. Two live processes 100 and 200 call `lockFile`
on a path that holds the lockfile of the finished process 999. Under the
schedule `raceSchedule` process A has returned nil after nine steps and the
path holds A's pid; the tenth step is B's `os.Remove`, which removes the
lockfile A has just created; after twelve steps B has returned nil too and
the path holds B's pid. -/
theorem lockFile_race_both_succeed :
    (Sys.plain 100 999).signal0 200 = none ∧ (Sys.plain 200 999).signal0 100 = none ∧
      (runTwo (Sys.plain 100 999) (Sys.plain 200 999) lockPath (raceSchedule.take 9)
        (Two.init staleDisk)).a = .done none ∧
      (runTwo (Sys.plain 100 999) (Sys.plain 200 999) lockPath (raceSchedule.take 9)
        (Two.init staleDisk)).b = .atRemove ∧
      (runTwo (Sys.plain 100 999) (Sys.plain 200 999) lockPath (raceSchedule.take 9)
        (Two.init staleDisk)).disk.read lockPath = some (pidLine 100) ∧
      (runTwo (Sys.plain 100 999) (Sys.plain 200 999) lockPath (raceSchedule.take 10)
        (Two.init staleDisk)).disk.read lockPath = none ∧
      (runTwo (Sys.plain 100 999) (Sys.plain 200 999) lockPath raceSchedule
        (Two.init staleDisk)).a = .done none ∧
      (runTwo (Sys.plain 100 999) (Sys.plain 200 999) lockPath raceSchedule
        (Two.init staleDisk)).b = .done none ∧
      (runTwo (Sys.plain 100 999) (Sys.plain 200 999) lockPath raceSchedule
        (Two.init staleDisk)).disk.read lockPath = some (pidLine 200) := by
  decide

/-- C2. Stale reclamation: when the caller finds a file at the lock path,
its content scans as the pid `p`, the probe of `p` (`os.FindProcess`, then
signal 0) reports "os: process already finished", and the remove, the create
and the write succeed, the first `lockFile` call returns nil and leaves the
caller's pid line at the path; the loop of `glock` makes this one attempt
and no sleep. -/
theorem stale_lock_reclaimed (w : World) (filename : Path) (wait : Int) (fuel : Nat)
    (d : Disk) (ino : Nat) (p : Int) (hfile : openRead (w.lockSys 0) d filename = .ok ino)
    (hparse : scanFile (w.lockSys 0) d ino = .ok p)
    (hfind : (w.lockSys 0).findProcess p = true)
    (hsig : (w.lockSys 0).signal0 p = some processFinished)
    (hremove : (w.lockSys 0).removeFault = false)
    (hcreate : (w.lockSys 0).createFault = false)
    (hwrite : (w.lockSys 0).writeFault = none) :
    (lockFile (w.lockSys 0) filename d).err = none ∧
      (lockFile (w.lockSys 0) filename d).disk.read filename =
        some (pidLine (w.lockSys 0).pid) ∧
      (acquire w filename wait (fuel + 1) 0 0 d).status = .locked ∧
      (acquire w filename wait (fuel + 1) 0 0 d).disk.read filename =
        some (pidLine (w.lockSys 0).pid) ∧
      (acquire w filename wait (fuel + 1) 0 0 d).trace = [.lockFile none] ∧
      attempts (acquire w filename wait (fuel + 1) 0 0 d).trace = 1 ∧
      sleeps (acquire w filename wait (fuel + 1) 0 0 d).trace = 0 := by
  obtain ⟨hopen, hdir⟩ := openRead_ok (w.lockSys 0) d filename ino hfile
  obtain ⟨hread, hscan⟩ := scanFile_ok (w.lockSys 0) d ino p hparse
  obtain ⟨h1, h2⟩ := lockFile_stale (w.lockSys 0) filename d ino p hdir hscan hopen hread
    hfind hsig hremove hcreate hwrite
  rw [acquire_ok w filename wait fuel 0 0 d h1]
  exact ⟨h1, h2, rfl, h2, rfl, rfl, rfl⟩

/-- C2 at a lockfile of the finished process 999, for the caller 4242. -/
theorem stale_lock_reclaimed_witness :
    (lockFile ((World.calm (Sys.plain 4242 999)).lockSys 0) lockPath staleDisk).err = none ∧
      (lockFile ((World.calm (Sys.plain 4242 999)).lockSys 0) lockPath staleDisk).disk.read
        lockPath = some (pidLine ((World.calm (Sys.plain 4242 999)).lockSys 0).pid) ∧
      (acquire (World.calm (Sys.plain 4242 999)) lockPath 10 (0 + 1) 0 0 staleDisk).status
        = .locked ∧
      (acquire (World.calm (Sys.plain 4242 999)) lockPath 10 (0 + 1) 0 0
        staleDisk).disk.read lockPath =
          some (pidLine ((World.calm (Sys.plain 4242 999)).lockSys 0).pid) ∧
      (acquire (World.calm (Sys.plain 4242 999)) lockPath 10 (0 + 1) 0 0 staleDisk).trace
        = [.lockFile none] ∧
      attempts (acquire (World.calm (Sys.plain 4242 999)) lockPath 10 (0 + 1) 0 0
        staleDisk).trace = 1 ∧
      sleeps (acquire (World.calm (Sys.plain 4242 999)) lockPath 10 (0 + 1) 0 0
        staleDisk).trace = 0 :=
  stale_lock_reclaimed (World.calm (Sys.plain 4242 999)) lockPath 10 0 staleDisk 0 999
    (by decide) (by decide) rfl (by decide) rfl rfl rfl

/-- C3. Fail closed on a live or unknown owner: when the lock path holds a
file that scans as the pid `p` and signal 0 to `p` is delivered or fails with
anything but "process already finished", `lockFile` returns an error, makes
no remove, create or write call, and leaves the disk as it was. -/
theorem live_owner_fails_closed (sys : Sys) (filename : Path) (d : Disk) (ino : Nat) (p : Int)
    (hfile : d.dir filename = some ino) (hparse : fscanfPid (d.data ino) = .ok p)
    (hsig : sys.signal0 p = none ∨ ∃ msg, sys.signal0 p = some msg ∧ msg ≠ processFinished) :
    (lockFile sys filename d).err ≠ none ∧ (lockFile sys filename d).disk = d ∧
      SysCall.remove ∉ (lockFile sys filename d).calls ∧
      SysCall.create ∉ (lockFile sys filename d).calls ∧
      SysCall.write ∉ (lockFile sys filename d).calls := by
  rcases hf : sys.openFault with _ | f
  · cases hr : sys.readFault
    · cases hfp : sys.findProcess p
      · simp [lockFile, checkExisting, openRead, scanFile, hfile, hparse, hf, hr, hfp]
      · rcases hsig with hs | ⟨msg, hs, hm⟩
        · simp [lockFile, checkExisting, openRead, scanFile, hfile, hparse, hf, hr, hfp, hs]
        · simp [lockFile, checkExisting, openRead, scanFile, hfile, hparse, hf, hr, hfp, hs, hm]
    · simp [lockFile, checkExisting, openRead, scanFile, hfile, hf, hr]
  · cases f with
    | notPathError => simp [lockFile, checkExisting, openRead, hf, OpenFault.err]
    | pathError msg hm => simp [lockFile, checkExisting, openRead, hf, OpenFault.err, hm]

/-- C3 at a lockfile of the live process 1, for the caller 4242. -/
theorem live_owner_fails_closed_witness :
    (lockFile (Sys.plain 4242 999) lockPath (Disk.single lockPath ['1', '\n'])).err ≠ none ∧
      (lockFile (Sys.plain 4242 999) lockPath (Disk.single lockPath ['1', '\n'])).disk =
        Disk.single lockPath ['1', '\n'] ∧
      SysCall.remove ∉
        (lockFile (Sys.plain 4242 999) lockPath (Disk.single lockPath ['1', '\n'])).calls ∧
      SysCall.create ∉
        (lockFile (Sys.plain 4242 999) lockPath (Disk.single lockPath ['1', '\n'])).calls ∧
      SysCall.write ∉
        (lockFile (Sys.plain 4242 999) lockPath (Disk.single lockPath ['1', '\n'])).calls :=
  live_owner_fails_closed (Sys.plain 4242 999) lockPath (Disk.single lockPath ['1', '\n']) 0 1
    (by decide) (by decide) (Or.inl (by decide))

/-- C4. Corrupt lock content: when the lock path holds a file that the
`"%d\n"` scan rejects, `checkExisting` and `lockFile` return an error, no
process is looked up or signalled, nothing is removed, created or written,
and the disk is left as it was. -/
theorem corrupt_lock_kept (sys : Sys) (filename : Path) (d : Disk) (ino : Nat)
    (e : ScanErr) (hfile : d.dir filename = some ino)
    (hparse : fscanfPid (d.data ino) = .error e) :
    (checkExisting sys filename d).err ≠ none ∧ (checkExisting sys filename d).disk = d ∧
      (lockFile sys filename d).err ≠ none ∧
      (∀ q, SysCall.findProcess q ∉ (lockFile sys filename d).calls ∧
        SysCall.signal q ∉ (lockFile sys filename d).calls) ∧
      SysCall.remove ∉ (lockFile sys filename d).calls ∧
      SysCall.create ∉ (lockFile sys filename d).calls ∧
      SysCall.write ∉ (lockFile sys filename d).calls ∧
      (lockFile sys filename d).disk = d := by
  rcases hf : sys.openFault with _ | f
  · cases hr : sys.readFault <;>
      simp [lockFile, checkExisting, openRead, scanFile, hfile, hparse, hf, hr]
  · cases f with
    | notPathError => simp [lockFile, checkExisting, openRead, hf, OpenFault.err]
    | pathError msg hm => simp [lockFile, checkExisting, openRead, hf, OpenFault.err, hm]

/-- C4 at a lockfile that holds the text abc and at an empty lockfile. -/
theorem corrupt_lock_kept_witness :
    (checkExisting (Sys.plain 4242 999) lockPath
        (Disk.single lockPath ['a', 'b', 'c'])).err ≠ none ∧
      (lockFile (Sys.plain 4242 999) lockPath (Disk.single lockPath ['a', 'b', 'c'])).disk =
        Disk.single lockPath ['a', 'b', 'c'] ∧
      (lockFile (Sys.plain 4242 999) lockPath (Disk.single lockPath [])).err ≠ none ∧
      (lockFile (Sys.plain 4242 999) lockPath (Disk.single lockPath [])).disk =
        Disk.single lockPath [] :=
  ⟨(corrupt_lock_kept (Sys.plain 4242 999) lockPath (Disk.single lockPath ['a', 'b', 'c']) 0
      .expectedInteger (by decide) (by decide)).1,
    (corrupt_lock_kept (Sys.plain 4242 999) lockPath (Disk.single lockPath ['a', 'b', 'c']) 0
      .expectedInteger (by decide) (by decide)).2.2.2.2.2.2.2,
    (corrupt_lock_kept (Sys.plain 4242 999) lockPath (Disk.single lockPath []) 0
      .unexpectedEOF (by decide) (by decide)).2.2.1,
    (corrupt_lock_kept (Sys.plain 4242 999) lockPath (Disk.single lockPath []) 0
      .unexpectedEOF (by decide) (by decide)).2.2.2.2.2.2.2⟩

/-- C5. Release on exit: in every run of `glock` that got the lock and does
not block forever in `c.Wait()` (the command failed to start, exited with or
without an error, or was killed or could not be killed on timeout), the lock
path holds the caller's pid line once the loop is left, and the release that
`glock` registered with `defer` runs exactly once, as the last thing `glock`
does: one `os.Remove` of the lock path, which succeeds exactly when no fault
is injected and the file is still there, and then unlinks it. When the
removal succeeds, and whenever no fault is injected, no file is left at the
lock path in the final disk. -/
theorem glock_releases_once (w : World) (lockfile : Path) (wait timeout : Int)
    (command : List String) (fuel : Nat) (d : Disk)
    (hlock : (acquire w lockfile wait fuel 0 0 d).status = .locked)
    (hret : (glock w lockfile wait timeout command fuel d).result ≠ .blocked) :
    releases (glock w lockfile wait timeout command fuel d).trace = 1 ∧
      (∃ j, (acquire w lockfile wait fuel 0 0 d).disk.read lockfile =
        some (pidLine (w.lockSys j).pid)) ∧
      (∃ pre ok, releases pre = 0 ∧
        (glock w lockfile wait timeout command fuel d).trace =
          pre ++ .removeLock ok ::
            ((if ok then [] else [.logErr .couldNotRemoveLockfile]) ++ [.log .released]) ∧
        (ok = true ↔ w.releaseFault = false ∧
          (w.duringRun (acquire w lockfile wait fuel 0 0 d).disk).dir lockfile ≠ none) ∧
        (glock w lockfile wait timeout command fuel d).disk =
          (if ok then (w.duringRun (acquire w lockfile wait fuel 0 0 d).disk).unlink lockfile
            else w.duringRun (acquire w lockfile wait fuel 0 0 d).disk)) ∧
      (Event.removeLock true ∈ (glock w lockfile wait timeout command fuel d).trace →
        (glock w lockfile wait timeout command fuel d).disk.read lockfile = none) ∧
      (w.releaseFault = false →
        (glock w lockfile wait timeout command fuel d).disk.read lockfile = none) ∧
      (w.releaseFault = false →
        (w.duringRun (acquire w lockfile wait fuel 0 0 d).disk).dir lockfile ≠ none →
        Event.removeLock true ∈ (glock w lockfile wait timeout command fuel d).trace) ∧
      ((glock w lockfile wait timeout command fuel d).result = .panicked ∨
        ∃ b, (glock w lockfile wait timeout command fuel d).result = .returned b) := by
  have hq := (acquire_quiet w lockfile wait fuel 0 0 d).2
  have hs := supervise_quiet w timeout command
  have hr := release_once w lockfile (w.duringRun (acquire w lockfile wait fuel 0 0 d).disk)
  obtain ⟨ok, htr, hok, hdisk, hgone⟩ :=
    release_spec w lockfile (w.duringRun (acquire w lockfile wait fuel 0 0 d).disk)
  have hfile := acquire_locked_file w lockfile wait fuel 0 0 d hlock
  have hpre : releases (Event.log Line.obtaining ::
      (acquire w lockfile wait fuel 0 0 d).trace ++ (supervise w timeout command).2) = 0 := by
    simp [releases, releases_append, hq, hs]
  have hno := releases_zero _ hpre true
  have hg : ∃ r : Result, (r = .panicked ∨ ∃ b, r = .returned b) ∧
      (glock w lockfile wait timeout command fuel d) =
        ⟨r, (release w lockfile (w.duringRun (acquire w lockfile wait fuel 0 0 d).disk)).1,
          (Event.log Line.obtaining :: (acquire w lockfile wait fuel 0 0 d).trace ++
            (supervise w timeout command).2) ++
          (release w lockfile (w.duringRun (acquire w lockfile wait fuel 0 0 d).disk)).2⟩ := by
    rcases hsup : (supervise w timeout command).1 with b | _ | _ | _
    · exact ⟨.returned b, Or.inr ⟨b, rfl⟩, by simp only [glock, hlock, hsup]⟩
    · exact ⟨.panicked, Or.inl rfl, by simp only [glock, hlock, hsup]⟩
    · simp only [glock, hlock, hsup] at hret
      exact absurd rfl hret
    · exact absurd hsup (supervise_not_looping w timeout command)
  obtain ⟨r, hres, hg⟩ := hg
  rw [hg]
  refine ⟨by rw [releases_append, hpre, hr.1], hfile, ⟨_, ok, hpre, by rw [htr], hok, hdisk⟩,
    ?_, hgone, ?_, hres⟩
  · intro hmem
    rcases List.mem_append.mp hmem with h | h
    · exact absurd h hno
    · exact hr.2 h
  · intro hf hd
    have : ok = true := hok.mpr ⟨hf, hd⟩
    subst this
    exact List.mem_append_right _ (by rw [htr]; exact List.mem_cons_self _ _)

/-- C5 at a run that reclaims a stale lockfile and runs its command: the
loop leaves the caller's pid line at the lock path, the one release removes
it, and the path is free in the end. -/
theorem glock_releases_once_witness :
    (acquire (World.calm (Sys.plain 4242 999)) lockPath 10 1 0 0 staleDisk).disk.read
        lockPath = some ['4', '2', '4', '2', '\n'] ∧
      releases (glock (World.calm (Sys.plain 4242 999)) lockPath 10 60 ["true"] 1
        staleDisk).trace = 1 ∧
      Event.removeLock true ∈ (glock (World.calm (Sys.plain 4242 999)) lockPath 10 60
        ["true"] 1 staleDisk).trace ∧
      (glock (World.calm (Sys.plain 4242 999)) lockPath 10 60 ["true"] 1
        staleDisk).disk.read lockPath = none :=
  ⟨by decide,
    (glock_releases_once (World.calm (Sys.plain 4242 999)) lockPath 10 60 ["true"] 1
      staleDisk (by decide) (by decide)).1,
    (glock_releases_once (World.calm (Sys.plain 4242 999)) lockPath 10 60 ["true"] 1
      staleDisk (by decide) (by decide)).2.2.2.2.2.1 rfl (by decide),
    (glock_releases_once (World.calm (Sys.plain 4242 999)) lockPath 10 60 ["true"] 1
      staleDisk (by decide) (by decide)).2.2.2.2.1 rfl⟩

/-- C6. Outcome mapping: `glock` returns true exactly when the lock was
acquired, the command started, and `c.Wait()` returned no error in the
unbounded branch (`timeout = -1`) or before the timer fired; it returns
false when the acquisition gave up, the start failed, the command exited
with an error, or the timer fired first (whether or not the kill succeeds);
and `main`, called with a command, exits with status 1 exactly when `glock`
returns false (without a command it exits with status 1 before it calls
`glock`). -/
theorem glock_outcome (w : World) (lockfile : Path) (wait timeout : Int)
    (command : List String) (fuel : Nat) (d : Disk) :
    ((glock w lockfile wait timeout command fuel d).result = .returned true ↔
        (acquire w lockfile wait fuel 0 0 d).status = .locked ∧ command ≠ [] ∧
          w.startFails = false ∧ w.waitFails = false ∧
          ((timeout = -1 ∧ w.exitAfter ≠ none) ∨
            (timeout ≠ -1 ∧ timerFirst w (secondsDur timeout) = false))) ∧
      ((acquire w lockfile wait fuel 0 0 d).status = .gaveUp →
        (glock w lockfile wait timeout command fuel d).result = .returned false) ∧
      ((acquire w lockfile wait fuel 0 0 d).status = .locked → command ≠ [] →
        w.startFails = true →
        (glock w lockfile wait timeout command fuel d).result = .returned false) ∧
      ((acquire w lockfile wait fuel 0 0 d).status = .locked → command ≠ [] →
        w.startFails = false → w.waitFails = true →
        ((timeout = -1 ∧ w.exitAfter ≠ none) ∨
          (timeout ≠ -1 ∧ timerFirst w (secondsDur timeout) = false)) →
        (glock w lockfile wait timeout command fuel d).result = .returned false) ∧
      ((acquire w lockfile wait fuel 0 0 d).status = .locked → command ≠ [] →
        w.startFails = false → timeout ≠ -1 → timerFirst w (secondsDur timeout) = true →
        (glock w lockfile wait timeout command fuel d).result = .returned false) ∧
      (command ≠ [] →
        (main w false lockfile wait timeout command fuel d = some 1 ↔
          (glock w lockfile wait timeout command fuel d).result = .returned false)) ∧
      (main w false lockfile wait timeout command fuel d = some 1 ↔
        command = [] ∨
          (glock w lockfile wait timeout command fuel d).result = .returned false) := by
  simp only [main, glock]
  generalize acquire w lockfile wait fuel 0 0 d = a
  rcases a with ⟨st, dk, tr⟩
  rcases command with _ | ⟨c, cs⟩
  · cases st <;> simp [supervise]
  · cases st <;> cases hsf : w.startFails <;> cases hwf : w.waitFails <;>
      by_cases ht : timeout = -1 <;> rcases hex : w.exitAfter with _ | t <;>
      cases htf : timerFirst w (secondsDur timeout) <;> cases hk : w.killFails <;>
      simp [supervise, hsf, hwf, ht, hex, htf, hk]

/-- C6 at a run on a free lock path whose command exits cleanly. -/
theorem glock_outcome_witness :
    (glock (World.calm (Sys.plain 4242 999)) lockPath 10 60 ["true"] 1
        Disk.empty).result = .returned true ∧
      ¬ main (World.calm (Sys.plain 4242 999)) false lockPath 10 60 ["true"] 1
        Disk.empty = some 1 :=
  ⟨(glock_outcome (World.calm (Sys.plain 4242 999)) lockPath 10 60 ["true"] 1
      Disk.empty).1.mpr ⟨by decide, by decide, rfl, rfl, Or.inr ⟨by decide, by decide⟩⟩,
    fun h => absurd
      (((glock_outcome (World.calm (Sys.plain 4242 999)) lockPath 10 60 ["true"] 1
        Disk.empty).2.2.2.2.2.1 (by decide)).mp h) (by decide)⟩

/-- C7. Bounded wait terminates: with `wait >= 0`, sleeps that take at least
one second each and attempts that all fail, the loop gives up after at most
`wait + 1` attempts, `glock` returns false and never starts the command;
with `wait = 0` there is exactly one attempt and no sleep. -/
theorem bounded_wait_terminates (w : World) (lockfile : Path) (wait timeout : Int)
    (command : List String) (d : Disk) (fuel : Nat) (hwait : 0 ≤ wait)
    (hsleep : ∀ i, 1000000000 ≤ w.sleepTime i)
    (hfail : ∀ f, (acquire w lockfile wait f 0 0 d).status ≠ .locked)
    (hfuel : wait.toNat + 1 ≤ fuel) :
    (acquire w lockfile wait fuel 0 0 d).status = .gaveUp ∧
      (glock w lockfile wait timeout command fuel d).result = .returned false ∧
      starts (glock w lockfile wait timeout command fuel d).trace = false ∧
      attempts (glock w lockfile wait timeout command fuel d).trace ≤ wait.toNat + 1 ∧
      (wait = 0 →
        attempts (glock w lockfile wait timeout command fuel d).trace = 1 ∧
        sleeps (glock w lockfile wait timeout command fuel d).trace = 0) := by
  obtain ⟨h1, h2, h3, h4⟩ := acquire_bounded_aux w lockfile wait hwait hsleep wait.toNat
    fuel 0 0 d (by simp [Int.toNat_of_nonneg hwait]) hfuel hfail
  have hq := (acquire_quiet w lockfile wait fuel 0 0 d).1
  have hg : (glock w lockfile wait timeout command fuel d) =
      ⟨.returned false, (acquire w lockfile wait fuel 0 0 d).disk,
        .log .obtaining :: (acquire w lockfile wait fuel 0 0 d).trace⟩ := by
    simp only [glock, h1]
  rw [hg]
  refine ⟨h1, rfl, by simpa [starts] using hq, by simpa [attempts] using h3, ?_⟩
  intro h0
  subst h0
  simp only [attempts, sleeps]
  simp only [Int.toNat_zero, zero_add] at h3
  omega

/-- C7 at a wait of two seconds in a directory where no file can be created. -/
theorem bounded_wait_terminates_witness :
    (acquire (World.calm (Sys.noCreate 4242)) lockPath 2 3 0 0 Disk.empty).status
        = .gaveUp ∧
      (glock (World.calm (Sys.noCreate 4242)) lockPath 2 60 ["true"] 3
        Disk.empty).result = .returned false ∧
      starts (glock (World.calm (Sys.noCreate 4242)) lockPath 2 60 ["true"] 3
        Disk.empty).trace = false ∧
      attempts (glock (World.calm (Sys.noCreate 4242)) lockPath 2 60 ["true"] 3
        Disk.empty).trace ≤ (2 : Int).toNat + 1 ∧
      ((2 : Int) = 0 →
        attempts (glock (World.calm (Sys.noCreate 4242)) lockPath 2 60 ["true"] 3
          Disk.empty).trace = 1 ∧
        sleeps (glock (World.calm (Sys.noCreate 4242)) lockPath 2 60 ["true"] 3
          Disk.empty).trace = 0) :=
  bounded_wait_terminates (World.calm (Sys.noCreate 4242)) lockPath 2 60 ["true"]
    Disk.empty 3 (by decide) (fun _ => le_refl _)
    (fun f => acquire_never_locks _ _ _ (fun _ _ => lockFile_createFault _ _ _ rfl) f 0 0 _)
    (by decide)

/-- C8. Unbounded wait polls forever at one second: with `wait = -1` the loop
never takes the give-up branch, so `glock` returns false only after the loop
got the lock; while the first `n` attempts fail the trace is `n` rounds of
one reported failed attempt followed by one sleep of a second, attempt
`n + 1` is made, and a loop that has left ends with a successful attempt. -/
theorem unbounded_wait_polls (w : World) (lockfile : Path) (d : Disk) (n : Nat)
    (hfail : (acquire w lockfile (-1) n 0 0 d).status ≠ .locked) :
    (∀ fuel, (acquire w lockfile (-1) fuel 0 0 d).status ≠ .gaveUp) ∧
      (∀ fuel timeout command,
        (glock w lockfile (-1) timeout command fuel d).result = .returned false →
          (acquire w lockfile (-1) fuel 0 0 d).status = .locked) ∧
      (∃ errs : List LockErr, errs.length = n ∧
        (acquire w lockfile (-1) n 0 0 d).trace = failedRounds errs ∧
        attempts (acquire w lockfile (-1) n 0 0 d).trace = n ∧
        sleeps (acquire w lockfile (-1) n 0 0 d).trace = n ∧
        ∃ r rest, (acquire w lockfile (-1) (n + 1) 0 0 d).trace =
          failedRounds errs ++ .lockFile r :: rest) ∧
      (∀ fuel, (acquire w lockfile (-1) fuel 0 0 d).status = .locked →
        ∃ pre, (acquire w lockfile (-1) fuel 0 0 d).trace = pre ++ [.lockFile none]) := by
  have hneg : (-1 : Int) < 0 := by decide
  refine ⟨fun fuel => acquire_never_gives_up w lockfile (-1) hneg fuel 0 0 d, ?_, ?_,
    fun fuel h => acquire_locked_last w lockfile (-1) fuel 0 0 d h⟩
  · intro fuel timeout command hres
    have hng := acquire_never_gives_up w lockfile (-1) hneg fuel 0 0 d
    rcases hst : (acquire w lockfile (-1) fuel 0 0 d).status with _ | _ | _
    · rfl
    · exact absurd hst hng
    · simp [glock, hst] at hres
  · obtain ⟨errs, hlen, _, htr, hnext⟩ :=
      acquire_unbounded_aux w lockfile (-1) hneg n 0 0 d hfail
    refine ⟨errs, hlen, htr, ?_, ?_, hnext⟩
    · rw [htr, ← hlen]
      exact attempts_failedRounds errs
    · rw [htr, ← hlen]
      exact sleeps_failedRounds errs

/-- C8 after two failed attempts at a lockfile of the live process 1. -/
theorem unbounded_wait_polls_witness :
    (∀ fuel, (acquire (World.calm (Sys.plain 4242 999)) lockPath (-1) fuel 0 0
        (Disk.single lockPath ['1', '\n'])).status ≠ .gaveUp) ∧
      (∀ fuel timeout command,
        (glock (World.calm (Sys.plain 4242 999)) lockPath (-1) timeout command fuel
          (Disk.single lockPath ['1', '\n'])).result = .returned false →
          (acquire (World.calm (Sys.plain 4242 999)) lockPath (-1) fuel 0 0
            (Disk.single lockPath ['1', '\n'])).status = .locked) ∧
      (∃ errs : List LockErr, errs.length = 2 ∧
        (acquire (World.calm (Sys.plain 4242 999)) lockPath (-1) 2 0 0
          (Disk.single lockPath ['1', '\n'])).trace = failedRounds errs ∧
        attempts (acquire (World.calm (Sys.plain 4242 999)) lockPath (-1) 2 0 0
          (Disk.single lockPath ['1', '\n'])).trace = 2 ∧
        sleeps (acquire (World.calm (Sys.plain 4242 999)) lockPath (-1) 2 0 0
          (Disk.single lockPath ['1', '\n'])).trace = 2 ∧
        ∃ r rest, (acquire (World.calm (Sys.plain 4242 999)) lockPath (-1) (2 + 1) 0 0
          (Disk.single lockPath ['1', '\n'])).trace =
          failedRounds errs ++ .lockFile r :: rest) ∧
      (∀ fuel, (acquire (World.calm (Sys.plain 4242 999)) lockPath (-1) fuel 0 0
          (Disk.single lockPath ['1', '\n'])).status = .locked →
        ∃ pre, (acquire (World.calm (Sys.plain 4242 999)) lockPath (-1) fuel 0 0
          (Disk.single lockPath ['1', '\n'])).trace = pre ++ [.lockFile none]) :=
  unbounded_wait_polls (World.calm (Sys.plain 4242 999)) lockPath
    (Disk.single lockPath ['1', '\n']) 2 (by decide)

/-- C9, as amended. Lock format round trip: on a disk without a file at the
lock path, when the read-only open reports the missing file and the
exclusive create and the write succeed, `lockFile` returns nil and leaves at
the path exactly the caller's pid in decimal (a minus sign first if it is
negative) followed by one newline; scanning that content with `"%d\n"`
yields the pid. -/
theorem lock_format_roundtrip (sys : Sys) (filename : Path) (d : Disk)
    (hfree : d.dir filename = none) (hpid : inInt64 sys.pid)
    (hopen : sys.openFault = none) (hcreate : sys.createFault = false)
    (hwrite : sys.writeFault = none) :
    (lockFile sys filename d).err = none ∧
      (lockFile sys filename d).disk.read filename = some (fmtInt sys.pid ++ ['\n']) ∧
      fmtInt sys.pid = (if sys.pid < 0 then ['-'] else []) ++ fmtUint sys.pid.natAbs ∧
      fmtUint sys.pid.natAbs ≠ [] ∧
      (∀ c ∈ fmtUint sys.pid.natAbs, '0' ≤ c ∧ c ≤ '9') ∧
      digitsVal (fmtUint sys.pid.natAbs) 0 = sys.pid.natAbs ∧
      fscanfPid (fmtInt sys.pid ++ ['\n']) = .ok sys.pid := by
  obtain ⟨h1, h2⟩ := lockFile_fresh sys filename d hfree hopen hcreate hwrite
  have hlt : sys.pid.natAbs < 10 ^ 20 := by
    unfold inInt64 at hpid
    omega
  refine ⟨h1, h2, ?_, fmtUintAux_ne_nil 19 _ [], ?_, ?_, fmtInt_scan sys.pid hpid⟩
  · unfold fmtInt
    split <;> rfl
  · intro c hc
    obtain ⟨k, hk, rfl⟩ := fmtUintAux_dec 20 sys.pid.natAbs [] (by simp) c hc
    exact (digitChar_facts k hk).1
  · simpa [fmtUint, digitsVal] using fmtUintAux_val 20 sys.pid.natAbs [] hlt

/-- C9, the claim as stated fails: on a disk without a file at the lock
path, a caller whose exclusive create fails (the directory is missing or not
writable, say) gets the error "could not create lockfile" from `lockFile`
and no file is left at the path; a caller whose write fails after two bytes
gets "could not write pid to lockfile" and leaves a file that holds 42, not
its pid 4242; a caller whose read-only open is refused gets "could not open
file". -/
theorem lock_format_roundtrip_counterexample :
    Disk.empty.dir lockPath = none ∧ inInt64 4242 ∧
      (lockFile (Sys.noCreate 4242) lockPath Disk.empty).err = some .couldNotCreate ∧
      (lockFile (Sys.noCreate 4242) lockPath Disk.empty).disk.read lockPath = none ∧
      (lockFile (Sys.noWrite 4242 2) lockPath Disk.empty).err = some .couldNotWritePid ∧
      (lockFile (Sys.noWrite 4242 2) lockPath Disk.empty).disk.read lockPath =
        some ['4', '2'] ∧
      (lockFile (Sys.noOpen 4242) lockPath Disk.empty).err =
        some (.checkExistingError .couldNotOpenFile) := by
  decide

/-- C9, as amended, for the caller 4242 on a disk without files. -/
theorem lock_format_roundtrip_witness :
    (lockFile (Sys.plain 4242 999) lockPath Disk.empty).err = none ∧
      (lockFile (Sys.plain 4242 999) lockPath Disk.empty).disk.read lockPath =
        some ['4', '2', '4', '2', '\n'] ∧
      fscanfPid ['4', '2', '4', '2', '\n'] = .ok 4242 :=
  ⟨(lock_format_roundtrip (Sys.plain 4242 999) lockPath Disk.empty rfl (by decide) rfl rfl
      rfl).1,
    (lock_format_roundtrip (Sys.plain 4242 999) lockPath Disk.empty rfl (by decide) rfl rfl
      rfl).2.1,
    (lock_format_roundtrip (Sys.plain 4242 999) lockPath Disk.empty rfl (by decide) rfl rfl
      rfl).2.2.2.2.2.2⟩

/-- C10, as amended. Sentinel asymmetry: every `wait < 0` keeps the loop
from giving up; of the timeouts only `-1` takes the branch without a timer
(it never kills and may block), every other value takes the timed branch
(it never blocks); and for `-9223372036 <= timeout <= 0` other than `-1`
the duration is `timeout` seconds without wrap-around, hence not positive,
so the timer's case is taken unless the command exits at the very instant
it starts and `select` picks it. -/
theorem sentinel_asymmetry (w : World) (lockfile : Path) (wait timeout : Int)
    (command : List String) (fuel i now : Nat) (d : Disk) :
    (wait < 0 → (acquire w lockfile wait fuel i now d).status ≠ .gaveUp) ∧
      (timeout = -1 →
        Event.kill ∉ (supervise w timeout command).2 ∧
        (command ≠ [] → w.startFails = false →
          (supervise w timeout command).1 =
            match w.exitAfter with
            | none => .blocked
            | some _ => .returned (!w.waitFails))) ∧
      (timeout ≠ -1 →
        (supervise w timeout command).1 ≠ .blocked ∧
        (command ≠ [] → w.startFails = false →
          (supervise w timeout command).1 =
            .returned (!timerFirst w (secondsDur timeout) && !w.waitFails))) ∧
      (-9223372036 ≤ timeout → timeout ≤ 0 → timeout ≠ -1 →
        secondsDur timeout = timeout * second ∧ secondsDur timeout ≤ 0 ∧
        timerFirst w (secondsDur timeout) =
          (match w.exitAfter with
            | some 0 => w.tieToTimer
            | _ => true) ∧
        (command ≠ [] → w.startFails = false → w.exitAfter ≠ some 0 →
          (supervise w timeout command).1 = .returned false ∧
          Event.kill ∈ (supervise w timeout command).2)) := by
  refine ⟨fun h => acquire_never_gives_up w lockfile wait h fuel i now d, ?_, ?_, ?_⟩
  · intro ht
    rcases command with _ | ⟨c, cs⟩
    · simp [supervise]
    · cases hsf : w.startFails <;> cases hwf : w.waitFails <;>
        rcases hex : w.exitAfter with _ | t <;> simp [supervise, ht, hsf, hwf, hex]
  · intro ht
    rcases command with _ | ⟨c, cs⟩
    · simp [supervise]
    · cases hsf : w.startFails <;> cases hwf : w.waitFails <;> cases hk : w.killFails <;>
        cases htf : timerFirst w (secondsDur timeout) <;>
        simp [supervise, ht, hsf, hwf, htf, hk]
  · intro hlo hhi hne
    have hdur : secondsDur timeout = timeout * second := by
      unfold secondsDur wrap64 second
      omega
    have hle : secondsDur timeout ≤ 0 := by
      rw [hdur]
      unfold second
      omega
    have hmax : max (secondsDur timeout) 0 = 0 := max_eq_right hle
    have htimer : timerFirst w (secondsDur timeout) =
        (match w.exitAfter with
          | some 0 => w.tieToTimer
          | _ => true) := by
      unfold timerFirst
      rw [hmax]
      rcases hex : w.exitAfter with _ | t
      · rfl
      · rcases t with _ | t
        · simp
        · have : ¬ ((t + 1 : Nat) : Int) < 0 := by omega
          have h2 : (0 : Int) < ((t + 1 : Nat) : Int) := by omega
          simp only [this, h2, if_true, if_false]
    refine ⟨hdur, hle, htimer, ?_⟩
    intro hc hsf hex
    have htf : timerFirst w (secondsDur timeout) = true := by
      rw [htimer]
      rcases hx : w.exitAfter with _ | t
      · rfl
      · rcases t with _ | t
        · exact absurd hx hex
        · rfl
    rcases command with _ | ⟨c, cs⟩
    · exact absurd rfl hc
    · cases hk : w.killFails <;> simp [supervise, hne, hsf, htf, hk]

/-- C10, the claim as stated fails: the timeout `-9223372037` is at most
zero and is not `-1`, yet its duration in nanoseconds wraps to a positive
number; a command that exits cleanly after one second is then not killed
and `glock` returns true. -/
theorem sentinel_asymmetry_counterexample :
    inInt64 (-9223372037) ∧ (-9223372037 : Int) ≤ 0 ∧ (-9223372037 : Int) ≠ -1 ∧
      secondsDur (-9223372037) = 9223372036709551616 ∧
      ¬ secondsDur (-9223372037) ≤ 0 ∧
      timerFirst (World.calm (Sys.plain 4242 999)) (secondsDur (-9223372037)) = false ∧
      Event.kill ∉ (glock (World.calm (Sys.plain 4242 999)) lockPath 10
        (-9223372037) ["true"] 1 Disk.empty).trace ∧
      (glock (World.calm (Sys.plain 4242 999)) lockPath 10 (-9223372037) ["true"] 1
        Disk.empty).result = .returned true := by
  decide

/-- C10, as amended, at `wait = -2` and `timeout = -2`. -/
theorem sentinel_asymmetry_witness :
    (acquire (World.calm (Sys.noCreate 4242)) lockPath (-2) 3 0 0 Disk.empty).status
        ≠ .gaveUp ∧
      secondsDur (-2) = -2 * second ∧ secondsDur (-2) ≤ 0 ∧
      (supervise (World.calm (Sys.plain 4242 999)) (-2) ["true"]).1 = .returned false ∧
      Event.kill ∈ (supervise (World.calm (Sys.plain 4242 999)) (-2) ["true"]).2 :=
  ⟨(sentinel_asymmetry (World.calm (Sys.noCreate 4242)) lockPath (-2) (-2) ["true"]
      3 0 0 Disk.empty).1 (by decide),
    ((sentinel_asymmetry (World.calm (Sys.plain 4242 999)) lockPath (-2) (-2)
      ["true"] 3 0 0 Disk.empty).2.2.2 (by decide) (by decide) (by decide)).1,
    ((sentinel_asymmetry (World.calm (Sys.plain 4242 999)) lockPath (-2) (-2)
      ["true"] 3 0 0 Disk.empty).2.2.2 (by decide) (by decide) (by decide)).2.1,
    ((sentinel_asymmetry (World.calm (Sys.plain 4242 999)) lockPath (-2) (-2)
      ["true"] 3 0 0 Disk.empty).2.2.2 (by decide) (by decide) (by decide)).2.2.2
      (by decide) rfl (by decide)⟩

end Glock
